import Mathlib

/-!
# Verification of the `debian-repo-remux` APT repository library

Shallow embedding of the library's core modules and proofs of the
specification's claims about them.

Modelling conventions:

* Python `str` is modelled as `List Char` (`PyStr`); Python `bytes` as
  `List Nat`.  UTF-8 decoding of the byte buffers handed to the tag-file
  parser is modelled as the evident character-by-character conversion.
* Python exceptions are modelled with `Except PyErr`; each constructor of
  `PyErr` names the Python exception class raised by the corresponding
  source line.
* Python `dict` is modelled as an insertion-ordered association list, with
  update-in-place preserving the original position of an existing key,
  matching CPython's iteration-order guarantee.
* The sentinel values `None` and `Ellipsis`, which the source mixes with
  real data (for example in `FileHash` slots and in the `decoder` argument
  of `_download_file`), are modelled explicitly by dedicated inductive
  types so that the source's `!= Ellipsis` tests keep their exact meaning.
-/

set_option maxRecDepth 4000

namespace DebRemux

/-- Python `str`, modelled as a list of characters. -/
abbrev PyStr := List Char

/-- The characters stripped by Python's `str.strip` family
(`" \t\n\r\x0b\x0c"`). -/
def pyIsSpace (c : Char) : Bool :=
  c = ' ' || c = '\t' || c = '\n' || c = '\r' ||
    c = Char.ofNat 11 || c = Char.ofNat 12

/-- Python `str.lstrip()` with no argument. -/
def pyLstrip (s : PyStr) : PyStr := s.dropWhile pyIsSpace

/-- Python `str.rstrip()` with no argument. -/
def pyRstrip (s : PyStr) : PyStr := (s.reverse.dropWhile pyIsSpace).reverse

/-- Python `str.strip()` with no argument. -/
def pyStrip (s : PyStr) : PyStr := pyLstrip (pyRstrip s)

/-- Python `str.split('\n')`: splitting on every newline, `''` giving
`['']`. -/
def splitNl : PyStr → List PyStr
  | [] => [[]]
  | c :: cs =>
    if c = '\n' then [] :: splitNl cs
    else
      match splitNl cs with
      | [] => [[c]]
      | l :: ls => (c :: l) :: ls

/-- Python `sep.join(xs)`. -/
def pyJoin (sep : PyStr) : List PyStr → PyStr
  | [] => []
  | [x] => x
  | x :: xs => x ++ sep ++ pyJoin sep xs

/-- Python `line.split(':', 1)` restricted to the case the source uses:
`some (left, right)` when a colon occurs, `none` when the unpacking
`[key, value] = line.split(':', 1)` would raise `ValueError`. -/
def splitColon1 : PyStr → Option (PyStr × PyStr)
  | [] => none
  | c :: cs =>
    if c = ':' then some ([], cs)
    else (splitColon1 cs).map (fun p => (c :: p.1, p.2))

/-- The Python exceptions raised by the embedded code. -/
inductive PyErr where
  /-- `KeyError` -/
  | keyError
  /-- `ValueError`, carrying the formatted message. -/
  | valueError (msg : PyStr)
  /-- `AttributeError` -/
  | attributeError
  /-- `TypeError` -/
  | typeError
  /-- `UnboundLocalError` (a `NameError`): a local variable that is only
  assigned inside a loop or conditional is read without having been
  bound. -/
  | unboundLocalError
  /-- `StopIteration`, from `next()` on an exhausted generator. -/
  | stopIteration
  /-- `FileNotFoundError` -/
  | fileNotFound
  /-- `apt.repo.exceptions.MissingControlFieldException(path, field)` -/
  | missingControlField (path field : PyStr)
  /-- `apt.repo.exceptions.IncorrectChecksumException(path)`; the source
  passes the formatted message as the `path` argument. -/
  | incorrectChecksum (path : PyStr)
  deriving DecidableEq

/-- Lookup in an insertion-ordered association list (Python `d[k]` /
`d.get(k)`). -/
def alistFind {α β : Type} [BEq α] : List (α × β) → α → Option β
  | [], _ => none
  | p :: d, k => if p.1 == k then some p.2 else alistFind d k

/-- Python `k in d` for a dict. -/
def alistHas {α β : Type} [BEq α] (d : List (α × β)) (k : α) : Bool :=
  (alistFind d k).isSome

/-- Python `d[k] = v`: updates the value in place for an existing key
(keeping its position), appends a new binding otherwise. -/
def alistSet {α β : Type} [BEq α] (d : List (α × β)) (k : α) (v : β) :
    List (α × β) :=
  if alistHas d k then d.map (fun p => if p.1 == k then (k, v) else p)
  else d ++ [(k, v)]

/-- `apt.tags.tagblock.TagBlock`: the four bookkeeping lists and the
field dictionary.  Dictionary values are strings; the `None`/`Ellipsis`
check in `_write_property` can therefore never fire for the blocks
modelled here (no code path under scrutiny stores a non-string value in
`TagBlock.dict`). -/
structure TagBlockL where
  required : List PyStr := []
  order_first : List PyStr := []
  order_last : List PyStr := []
  magic : List PyStr := []
  dict : List (PyStr × PyStr) := []
  deriving DecidableEq

/-- `TagBlock.__contains__`. -/
def TagBlockL.containsKey (b : TagBlockL) (k : PyStr) : Bool :=
  alistHas b.dict k

/-- `TagBlock.__getitem__`: `self.dict[item]`, `KeyError` when absent. -/
def TagBlockL.getItem (b : TagBlockL) (k : PyStr) : Except PyErr PyStr :=
  match alistFind b.dict k with
  | some v => Except.ok v
  | none => Except.error PyErr.keyError

/-- `TagBlock.__setitem__`: raises `KeyError` on a magic field; otherwise
appends the key to `order_first` on first sight (when in neither ordering
list) and writes the dictionary. -/
def TagBlockL.setItem (b : TagBlockL) (k v : PyStr) : Except PyErr TagBlockL :=
  if k ∈ b.magic then Except.error PyErr.keyError
  else
    Except.ok { b with
      order_first :=
        if k ∉ b.order_first ∧ k ∉ b.order_last then b.order_first ++ [k]
        else b.order_first,
      dict := alistSet b.dict k v }

/-- `TagBlock.__len__`. -/
def TagBlockL.lenB (b : TagBlockL) : Nat := b.dict.length

/-- State of the `read_tag_file` loop: the block being accumulated, the
current field name (`key`, which starts as `None`), and the blocks already
yielded. -/
structure ParseState where
  tags : TagBlockL
  key : Option PyStr
  out : List TagBlockL
  deriving DecidableEq

/-- One iteration of the `for line in data.decode('utf-8').split('\n')`
loop of `apt.tags.read_tag_file`. -/
def readTagStep (st : ParseState) (rawLine : PyStr) : Except PyErr ParseState :=
  let line := pyRstrip rawLine
  if line = [] then
    Except.ok
      { tags := {}, key := none,
        out := if st.tags.lenB > 0 then st.out ++ [st.tags] else st.out }
  else if line.head? = some ' ' then
    -- `if not key: continue` — both `None` and the empty string are falsy
    match st.key with
    | none => Except.ok st
    | some k =>
      if k = [] then Except.ok st
      else if st.tags.containsKey k then
        match alistFind st.tags.dict k with
        | some old =>
          match st.tags.setItem k (old ++ '\n' :: pyStrip line) with
          | Except.ok t => Except.ok { st with tags := t }
          | Except.error e => Except.error e
        | none => Except.error PyErr.keyError
      else
        match st.tags.setItem k (pyStrip line) with
        | Except.ok t => Except.ok { st with tags := t }
        | Except.error e => Except.error e
  else
    match splitColon1 line with
    | none => Except.error (PyErr.valueError line)
    | some (k, v) =>
      let value := pyStrip v
      if value = [] then Except.ok { st with key := some k }
      else
        match st.tags.setItem k value with
        | Except.ok t => Except.ok { st with tags := t, key := some k }
        | Except.error e => Except.error e

/-- A field name as the parser can produce it and the serializer can
reproduce: non-empty, not starting with a space (the continuation
marker), containing neither the header separator `:` nor a newline. -/
def validKey (k : PyStr) : Bool :=
  match k with
  | [] => false
  | c :: _ => c ≠ ' ' && !k.contains ':' && !k.contains '\n'

/-- A value line as the parser can produce it: non-empty with no leading
or trailing Python whitespace (every stored line is the `strip` of a
non-blank input line). -/
def validLine (l : PyStr) : Bool :=
  match l.head?, l.reverse.head? with
  | some c, some d => !pyIsSpace c && !pyIsSpace d
  | _, _ => false

/-- The `for line in ...` loop of `read_tag_file`, line by line. -/
def runLines : ParseState → List PyStr → Except PyErr ParseState
  | st, [] => Except.ok st
  | st, l :: ls =>
    match readTagStep st l with
    | Except.ok st1 => runLines st1 ls
    | Except.error e => Except.error e

/-- `apt.tags.read_tag_file` with the default template (`TagBlock`),
returning the fully consumed generator as a list. -/
def readTagFile (data : PyStr) : Except PyErr (List TagBlockL) :=
  match runLines ⟨{}, none, []⟩ (splitNl data) with
  | Except.ok st =>
    Except.ok (if st.tags.lenB > 0 then st.out ++ [st.tags] else st.out)
  | Except.error e => Except.error e

/-- `value.replace('\n', '\n ')` from `TagBlock._write_property`. -/
def nlReplace (v : PyStr) : PyStr :=
  (v.map (fun c => if c = '\n' then ['\n', ' '] else [c])).flatten

/-- The string built by `TagBlock._write_property` for key `k` holding
string value `v`. -/
def formatProp (k v : PyStr) : PyStr :=
  if '\n' ∈ v then k ++ ':' :: '\n' :: ' ' :: nlReplace v
  else k ++ ':' :: ' ' :: v

/-- `TagBlock._write_property(key)`: looks the key up through
`__getitem__` (raising `KeyError` when absent) and formats it.  A `None`
or `Ellipsis` value would yield `none`; string values always yield
`some`. -/
def TagBlockL.writeProp (b : TagBlockL) (k : PyStr) :
    Except PyErr (Option PyStr) :=
  match alistFind b.dict k with
  | none => Except.error PyErr.keyError
  | some v => Except.ok (some (formatProp k v))

/-- One of the four key loops of `TagBlock.__str__`: walks `ks`, skipping
keys according to `skip` (which sees the current `keys_done`), appending
`_write_property` results to `elements` and the key to `keys_done`. -/
def strPass (b : TagBlockL) (skip : PyStr → List PyStr → Bool) :
    List PyStr → List (Option PyStr) × List PyStr →
    Except PyErr (List (Option PyStr) × List PyStr)
  | [], st => Except.ok st
  | k :: ks, (els, done) =>
    if skip k done then strPass b skip ks (els, done)
    else
      match b.writeProp k with
      | Except.ok w => strPass b skip ks (els ++ [w], done ++ [k])
      | Except.error e => Except.error e

/-- Python `filter(None, elements)`: drops the falsy entries, i.e. `None`
and the empty string. -/
def pyFilterTruthy (els : List (Option PyStr)) : List PyStr :=
  (els.filterMap id).filter (fun s => s ≠ [])

/-- `TagBlock.__str__`: the four ordered passes (`order_first`, the
dictionary, `magic`, `order_last`) sharing one `elements`/`keys_done`
state, then `'\n'.join(filter(None, elements))`. -/
def TagBlockL.tagStr (b : TagBlockL) : Except PyErr PyStr :=
  match strPass b
      (fun k done => done.contains k || !(b.containsKey k)) b.order_first ([], []) with
  | Except.error e => Except.error e
  | Except.ok st1 =>
    match strPass b
        (fun k done => done.contains k || b.order_last.contains k)
        (b.dict.map (fun p => p.1)) st1 with
    | Except.error e => Except.error e
    | Except.ok st2 =>
      match strPass b (fun k done => done.contains k) b.magic st2 with
      | Except.error e => Except.error e
      | Except.ok st3 =>
        match strPass b (fun k done => done.contains k) b.order_last st3 with
        | Except.error e => Except.error e
        | Except.ok st4 =>
          Except.ok (pyJoin ['\n'] (pyFilterTruthy st4.1))

/-- Conversion of a Lean string literal to the `PyStr` model. -/
def pys (s : String) : PyStr := s.data

/-- A Python value as stored in the dynamically typed slots the source
uses (`FileHash` attributes, pool keys): a real string, a real integer,
or one of the two sentinels `None` and `Ellipsis`. -/
inductive PyVal where
  | pnone
  | pellipsis
  | pstr (s : PyStr)
  | pint (n : Int)
  deriving DecidableEq

/-- `str.lower()`. -/
def pyLower (s : PyStr) : PyStr := s.map Char.toLower

/-- `key.replace('sum', '')`: removes every (non-overlapping, leftmost
first) occurrence of `"sum"`. -/
def removeSum : PyStr → PyStr
  | 's' :: 'u' :: 'm' :: cs => removeSum cs
  | c :: cs => c :: removeSum cs
  | [] => []

/-- The attribute-name normalisation `key.lower().replace('sum', '')`
performed by `FileHash.__setattr__`, `__getattr__` and `__getitem__`. -/
def fhNormKey (k : PyStr) : PyStr := removeSum (pyLower k)

/-- `apt.tags.filehash.FileHash`.  Every slot defaults to `None`
(the class-level annotations assign `None`, not `Ellipsis`).
`filename` is assigned a string by `__init__` but is typed `PyVal` here
because `__setattr__` routes `Filename` writes into it unchecked. -/
structure FileHashL where
  filename : PyVal
  size : PyVal := PyVal.pnone
  md5 : PyVal := PyVal.pnone
  sha1 : PyVal := PyVal.pnone
  sha256 : PyVal := PyVal.pnone
  sha512 : PyVal := PyVal.pnone
  deriving DecidableEq

/-- `FileHash.__setattr__`: normalises the name and writes the slot.
An unknown normalised name would create a fresh attribute that no
embedded code path ever reads; it is dropped. -/
def FileHashL.slotSet (fh : FileHashL) (k : PyStr) (v : PyVal) : FileHashL :=
  let n := fhNormKey k
  if n = pys ("filename") then { fh with filename := v }
  else if n = pys ("size") then { fh with size := v }
  else if n = pys ("md5") then { fh with md5 := v }
  else if n = pys ("sha1") then { fh with sha1 := v }
  else if n = pys ("sha256") then { fh with sha256 := v }
  else if n = pys ("sha512") then { fh with sha512 := v }
  else fh

/-- `FileHash.__getitem__` (and `__getattr__` for instance attribute
access): normalises the name, then `object.__getattribute__`;
`AttributeError` for an unknown slot. -/
def FileHashL.slotGet (fh : FileHashL) (k : PyStr) : Except PyErr PyVal :=
  let n := fhNormKey k
  if n = pys ("filename") then Except.ok fh.filename
  else if n = pys ("size") then Except.ok fh.size
  else if n = pys ("md5") then Except.ok fh.md5
  else if n = pys ("sha1") then Except.ok fh.sha1
  else if n = pys ("sha256") then Except.ok fh.sha256
  else if n = pys ("sha512") then Except.ok fh.sha512
  else Except.error PyErr.attributeError

/-- Python `key in info` for a `FileHash` instance `info`, as evaluated
by `ReleaseFile.__getitem__`.  `FileHash` defines neither `__contains__`
nor `__iter__` (special-method lookup goes through the type and does not
consult `__getattr__`), so the `in` operator falls back to the legacy
sequence protocol and calls `info[0]`; `FileHash.__getitem__` then
executes `(0).lower()`, raising `AttributeError: 'int' object has no
attribute 'lower'`.  A membership test on a FileHash therefore always
raises, whatever the key. -/
def FileHashL.containsTest (_ : FileHashL) (_ : PyStr) : Except PyErr Bool :=
  Except.error PyErr.attributeError

/-- `info.__getattribute__(key)` called explicitly (as in
`ReleaseFile.__getitem__`'s format line): plain `object.__getattribute__`
without the `__getattr__` fallback, so the raw (un-normalised) name must
match a stored slot name exactly; the capitalised magic names never do. -/
def FileHashL.getattributeRaw (fh : FileHashL) (k : PyStr) : Except PyErr PyVal :=
  if k = pys ("filename") then Except.ok fh.filename
  else if k = pys ("size") then Except.ok fh.size
  else if k = pys ("md5") then Except.ok fh.md5
  else if k = pys ("sha1") then Except.ok fh.sha1
  else if k = pys ("sha256") then Except.ok fh.sha256
  else if k = pys ("sha512") then Except.ok fh.sha512
  else Except.error PyErr.attributeError

/-- Lexicographic (code-point) order on Python strings, as used by
`sorted` on the filename keys. -/
def pyStrLe : PyStr → PyStr → Bool
  | [], _ => true
  | _ :: _, [] => false
  | a :: as, b :: bs => if a = b then pyStrLe as bs else decide (a < b)

/-- The sort key `lambda f: f['filename']` compares the `filename`
slots; all embedded call sites store strings there. -/
def fhKeyLe (a b : FileHashL) : Bool :=
  match a.filename, b.filename with
  | PyVal.pstr x, PyVal.pstr y => pyStrLe x y
  | _, _ => true

/-- `sorted(file_list, key=lambda f: f['filename'])` (stable sort). -/
def sortByFilename (fs : List FileHashL) : List FileHashL :=
  fs.mergeSort fhKeyLe

/-- `str(value)`-style conversion used for the `{0}` and `{1.filename}`
fields of the checksum-line format string. -/
def pyFormatVal : PyVal → PyStr
  | PyVal.pstr s => s
  | PyVal.pnone => pys ("None")
  | PyVal.pellipsis => pys ("Ellipsis")
  | PyVal.pint n => (toString n).data

/-- `'{:>12}'.format(value)`: right-aligns in a 12-character field.
Alignment of `None` (or `Ellipsis`) raises `TypeError`. -/
def pyFormatAlignRight12 : PyVal → Except PyErr PyStr
  | PyVal.pint n =>
    let s := (toString n).data
    Except.ok (List.replicate (12 - s.length) ' ' ++ s)
  | PyVal.pstr s => Except.ok (List.replicate (12 - s.length) ' ' ++ s)
  | _ => Except.error PyErr.typeError

/-- `'{0} {1.size:>12} {1.filename}'.format(hv, info)`. -/
def formatHashLine (hv : PyVal) (info : FileHashL) : Except PyErr PyStr := do
  let ss ← pyFormatAlignRight12 info.size
  Except.ok (pyFormatVal hv ++ ' ' :: ss ++ ' ' :: pyFormatVal info.filename)

/-- The magic field names registered by `ReleaseFile.__init__`. -/
def releaseMagic : List PyStr :=
  [pys ("MD5Sum"), pys ("SHA1"), pys ("SHA256"), pys ("SHA512")]

/-- `apt.tags.releasefile.ReleaseFile`: the underlying `TagBlock` (whose
`magic` list is `releaseMagic` for instances built by `__init__`) plus
the `files` side map. -/
structure ReleaseFileL where
  base : TagBlockL := { magic := releaseMagic }
  files : List (PyStr × FileHashL) := []
  deriving DecidableEq

/-- The `for info in file_list` loop of `ReleaseFile.__getitem__`:
tests `key not in info` on each `FileHash` (see
`FileHashL.containsTest`) and formats one line per populated entry. -/
def releaseHashLines (k : PyStr) :
    List FileHashL → List PyStr → Except PyErr (List PyStr)
  | [], acc => Except.ok acc
  | info :: rest, acc =>
    match info.containsTest k with
    | Except.error e => Except.error e
    | Except.ok mem =>
      if mem then
        match info.getattributeRaw k with
        | Except.error e => Except.error e
        | Except.ok hv =>
          match formatHashLine hv info with
          | Except.error e => Except.error e
          | Except.ok line => releaseHashLines k rest (acc ++ [line])
      else releaseHashLines k rest acc

/-- `ReleaseFile.__getitem__`: non-magic keys delegate to
`TagBlock.__getitem__`; a magic key enumerates `self.files.values()`
sorted by filename, runs `releaseHashLines`, joins the produced lines,
and returns `None` when no line was produced. -/
def ReleaseFileL.getItem (r : ReleaseFileL) (k : PyStr) :
    Except PyErr (Option PyStr) :=
  if k ∈ r.base.magic then
    match releaseHashLines k (sortByFilename (r.files.map (fun p => p.2))) [] with
    | Except.error e => Except.error e
    | Except.ok output =>
      if output = [] then Except.ok none
      else Except.ok (some (pyJoin ['\n'] output))
  else (r.base.getItem k).map some

/-- The optional `decoder` argument of `_download_file` as actually
passed by the call sites: `None` (default), a real function, or — from
`Distribution.package_list`'s reader table — the `Ellipsis` sentinel,
which is truthy and not callable. -/
inductive DecoderV where
  | dnone
  | dellipsis
  | dfn (f : List Nat → List Nat)

/-- The hash-selection loop of `_download_file`:
`for hash_name in ['sha256', 'sha512', 'sha1', 'md5']`, breaking at the
first slot whose value `!= Ellipsis`.  Note this is not "the first
populated slot": an unset `FileHash` slot holds `None`, which passes the
`!= Ellipsis` test, so an unset `sha256` slot is selected (with value
`None`) ahead of any populated weaker hash.  `none` means the loop never
broke, leaving the locals `hash_func`/`hash_value` unbound. -/
def selectHash (h : FileHashL) : Option (PyStr × PyVal) :=
  if h.sha256 ≠ PyVal.pellipsis then some (pys ("sha256"), h.sha256)
  else if h.sha512 ≠ PyVal.pellipsis then some (pys ("sha512"), h.sha512)
  else if h.sha1 ≠ PyVal.pellipsis then some (pys ("sha1"), h.sha1)
  else if h.md5 ≠ PyVal.pellipsis then some (pys ("md5"), h.md5)
  else none

/-- `'/'.join(path)`. -/
def joinSlash (path : List PyStr) : PyStr := pyJoin ['/'] path

/-- `AbstractRepoObject._download_file(path, hashes, decoder)`.

`blocks` is the chunk sequence produced by the `stream.read(4096)` loop
(transport abstracted); `hashFn name data` abstracts
`hashlib.new(name)` fed `data` and asked for `hexdigest()`.  The
`if not self.repo` guard is omitted: every embedded call site operates on
an attached object.  Mirrors the source order: selection loop, size
check (`hashes.size == Ellipsis` — `None` passes), the
`Ellipsis in (hash_func, hash_value)` test (which raises
`UnboundLocalError` when the loop never broke and is otherwise `False`),
then the streaming loop updating hash and counter on the raw block and
appending the decoded block, and finally the digest/size comparison. -/
def applyDecoder (decoder : DecoderV) (block : List Nat) :
    Except PyErr (List Nat) :=
  match decoder with
  | DecoderV.dnone => Except.ok block
  | DecoderV.dellipsis => Except.error PyErr.typeError
  | DecoderV.dfn f => Except.ok (f block)

/-- The `for block in iter(lambda: stream.read(4096), b"")` loop of
`_download_file`, accumulating the `output` buffer; each iteration runs
`decoder(block) if decoder else block` (see `applyDecoder`) and an
exception there aborts the loop.  The raw-byte hash and counter updates
are pure and are accounted for in `downloadFile` by hashing and counting
the concatenation of the blocks. -/
def downloadLoop (decoder : DecoderV) :
    List (List Nat) → List Nat → Except PyErr (List Nat)
  | [], acc => Except.ok acc
  | b :: bs, acc =>
    match applyDecoder decoder b with
    | Except.ok dec => downloadLoop decoder bs (acc ++ dec)
    | Except.error e => Except.error e

def downloadFile (path : List PyStr) (hashes : FileHashL)
    (decoder : DecoderV) (blocks : List (List Nat))
    (hashFn : PyStr → List Nat → PyStr) : Except PyErr (List Nat) :=
  if hashes.size = PyVal.pellipsis then
    Except.error (PyErr.valueError (pys ("File size missing from hash")))
  else
    match selectHash hashes with
    | none => Except.error PyErr.unboundLocalError
    | some (hname, hval) =>
      match downloadLoop decoder blocks [] with
      | Except.error e => Except.error e
      | Except.ok output =>
        let raw := blocks.flatten
        if PyVal.pstr (hashFn hname raw) = hval ∧ PyVal.pint raw.length = hashes.size
        then Except.ok output
        else Except.error (PyErr.incorrectChecksum
          (pys ("Invalid checksum for ") ++ joinSlash path))

/-- The magic field names registered by `Package.__init__`. -/
def packageMagic : List PyStr :=
  [pys ("Filename"), pys ("MD5Sum"), pys ("SHA1"), pys ("SHA256"), pys ("SHA512")]

/-- `apt.repo.package.Package`: the `TagBlock` part (whose `magic` list
is `packageMagic` for constructed instances) and the embedded `_hashes`
FileHash.  The `repo`/`parent` back references are not modelled; every
embedded scenario keeps all objects in one repository. -/
structure PackageL where
  tag : TagBlockL
  hashes : FileHashL
  deriving DecidableEq

/-- `Package.__setitem__`: magic keys are routed into
`self._hashes.__setattr__`; the rest go to `TagBlock.__setitem__`. -/
def PackageL.setItem (p : PackageL) (k : PyStr) (v : PyStr) :
    Except PyErr PackageL :=
  if k ∈ p.tag.magic then
    Except.ok { p with hashes := p.hashes.slotSet k (PyVal.pstr v) }
  else do
    let t ← p.tag.setItem k v
    Except.ok { p with tag := t }

/-- `Package.__getitem__`: magic keys read `self._hashes[key]`; the rest
go to `TagBlock.__getitem__` (strings). -/
def PackageL.getItem (p : PackageL) (k : PyStr) : Except PyErr PyVal :=
  if k ∈ p.tag.magic then p.hashes.slotGet k
  else (p.tag.getItem k).map PyVal.pstr

/-- The `for key in data.dict` copy loop of `Package.__init__`. -/
def setItemsFold : PackageL → List (PyStr × PyStr) → Except PyErr PackageL
  | p, [] => Except.ok p
  | p, kv :: rest =>
    match p.setItem kv.1 kv.2 with
    | Except.ok p1 => setItemsFold p1 rest
    | Except.error e => Except.error e

/-- The `for key in data.magic` copy loop of `Package.__init__`. -/
def copyMagicFold (data : TagBlockL) : PackageL → List PyStr → Except PyErr PackageL
  | p, [] => Except.ok p
  | p, k :: rest =>
    match data.getItem k with
    | Except.error e => Except.error e
    | Except.ok v =>
      match p.setItem k v with
      | Except.ok p1 => copyMagicFold data p1 rest
      | Except.error e => Except.error e

/-- `Package.__init__(repository, parent, data)`: registers the magic
names, creates `FileHash('')`, then copies `data.dict` (and then
`data.magic`, which is empty for plain parsed stanzas) through
`self.__setitem__`. -/
def mkPackage (data : TagBlockL) : Except PyErr PackageL :=
  let p0 : PackageL :=
    { tag := { magic := packageMagic }, hashes := { filename := PyVal.pstr [] } }
  match setItemsFold p0 data.dict with
  | Except.ok p1 => copyMagicFold data p1 data.magic
  | Except.error e => Except.error e

/-- The class-level attributes of `Repository`
(`_distributions`, `_pool`, `_pool_by_package`).  They are defined in
the class body, `__init__` assigns only `base_uri`, `gpg` and
`transport` on the instance, and every use mutates the class-held
containers in place — so one copy of this state is shared by all
`Repository` instances (see claim C10). -/
structure RepoClassState where
  /-- key set of `Repository._distributions` (the cached `Distribution`
  objects themselves are modelled separately as `DistState`). -/
  distributions : List PyStr := []
  /-- `Repository._pool` -/
  pool : List (PyVal × PackageL) := []
  /-- `Repository._pool_by_package` -/
  poolByPackage : List (PyVal × List (PyVal × PyVal)) := []
  deriving DecidableEq

/-- One `if not package[field]: raise MissingControlFieldException(...)`
validation of `Repository._add_package`: the lookup goes through
`TagBlock.__getitem__` and raises `KeyError` for an *absent* field; the
`MissingControlFieldException` fires only for a present-but-falsy
value. -/
def checkField (stanza : TagBlockL) (filename : PyStr) (field : PyStr) :
    Except PyErr PyStr :=
  match stanza.getItem field with
  | Except.error e => Except.error e
  | Except.ok v =>
    if v = [] then Except.error (PyErr.missingControlField filename field)
    else Except.ok v

/-- The registration tail of `Repository._add_package`: wraps the stanza
in a `Package`, stores it at `_pool[package['SHA256']]` and registers
`_pool_by_package[package['Package']][package['Version']] =
package['SHA256']`. -/
def registerPackage (st : RepoClassState) (stanza : TagBlockL) :
    Except PyErr (RepoClassState × PackageL) :=
  match mkPackage stanza with
  | Except.error e => Except.error e
  | Except.ok pkg =>
    match pkg.getItem (pys ("SHA256")), pkg.getItem (pys ("Package")),
        pkg.getItem (pys ("Version")) with
    | Except.ok shaV, Except.ok pkgName, Except.ok verV =>
      let pool1 := alistSet st.pool shaV pkg
      let byp :=
        if alistHas st.poolByPackage pkgName then st.poolByPackage
        else alistSet st.poolByPackage pkgName []
      let inner := (alistFind byp pkgName).getD []
      let byp2 := alistSet byp pkgName (alistSet inner verV shaV)
      Except.ok ({ st with pool := pool1, poolByPackage := byp2 }, pkg)
    | Except.error e, _, _ => Except.error e
    | _, Except.error e, _ => Except.error e
    | _, _, Except.error e => Except.error e

/-- `Repository._add_package(package, filename)` for a plain `TagBlock`
stanza (the type annotation of the source and the type the
`package_list` call site passes): the four field validations in source
order (`SHA256`, `Filename`, `Package`, `Version`), the pool
short-circuit on a known SHA256, then registration. -/
def addPackage (st : RepoClassState) (stanza : TagBlockL) (filename : PyStr) :
    Except PyErr (RepoClassState × PackageL) :=
  match checkField stanza filename (pys ("SHA256")) with
  | Except.error e => Except.error e
  | Except.ok sha =>
    match checkField stanza filename (pys ("Filename")) with
    | Except.error e => Except.error e
    | Except.ok _ =>
      match checkField stanza filename (pys ("Package")) with
      | Except.error e => Except.error e
      | Except.ok _ =>
        match checkField stanza filename (pys ("Version")) with
        | Except.error e => Except.error e
        | Except.ok _ =>
          match alistFind st.pool (PyVal.pstr sha) with
          | some pkg => Except.ok (st, pkg)
          | none => registerPackage st stanza

/-- `Repository.package_by_hash`: `self._pool[package_hash]`, a plain
dict lookup raising `KeyError` when absent. -/
def packageByHash (st : RepoClassState) (h : PyVal) : Except PyErr PackageL :=
  match alistFind st.pool h with
  | some p => Except.ok p
  | none => Except.error PyErr.keyError

/-- The module-wide mutable world: the `Repository` class attributes and
the `PackageList` class attribute `_hashes` (a single class-level `set`
shared by every `PackageList` instance), plus an allocation counter
giving fresh `PackageList` objects their identity. -/
structure WorldState where
  repo : RepoClassState := {}
  /-- `PackageList._hashes` — class attribute, one set for every
  instance. -/
  plHashes : List PyVal := []
  /-- identity source for newly constructed `PackageList` objects. -/
  plNextId : Nat := 0

/-- Python `set.add`. -/
def setAdd (s : List PyVal) (x : PyVal) : List PyVal :=
  if x ∈ s then s else s ++ [x]

/-- `PackageList.add(package)` when `package` is a `Package` of the same
repository: `self.repo.adopt(package)` short-circuits
(`package.repo == self.repo`) and returns it, then
`self._hashes.add(package['SHA256'])` mutates the class-level set. -/
def plAdd (w : WorldState) (pkg : PackageL) : Except PyErr WorldState :=
  match pkg.getItem (pys ("SHA256")) with
  | Except.error e => Except.error e
  | Except.ok sha => Except.ok { w with plHashes := setAdd w.plHashes sha }

/-- A `Repository` instance: its dict holds only what `__init__`
assigns (`base_uri`; `gpg` and `transport` are irrelevant here).  The
pool and distribution containers are deliberately *not* fields: they
live in `RepoClassState`. -/
structure RepositoryInst where
  baseUri : PyStr
  deriving DecidableEq

/-- `Repository.distribution(name)` called on an instance: resolves
`self._distributions` to the class attribute (no instance attribute
shadows it) and inserts a fresh `Distribution` under `name` if absent. -/
def repoDistribution (w : WorldState) (_ : RepositoryInst) (name : PyStr) :
    WorldState :=
  if name ∈ w.repo.distributions then w
  else { w with repo :=
    { w.repo with distributions := w.repo.distributions ++ [name] } }

/-- `Repository.distributions()`: the key view of the class-level
`_distributions` dict. -/
def repoDistributions (w : WorldState) (_ : RepositoryInst) : List PyStr :=
  w.repo.distributions

/-- `Repository._add_package` reached through an instance (state is the
class-level pool). -/
def repoAddPackage (w : WorldState) (_ : RepositoryInst) (stanza : TagBlockL)
    (filename : PyStr) : Except PyErr (WorldState × PackageL) :=
  match addPackage w.repo stanza filename with
  | Except.error e => Except.error e
  | Except.ok (st, pkg) => Except.ok ({ w with repo := st }, pkg)

/-- `Repository.package_by_hash` reached through an instance. -/
def repoPackageByHash (w : WorldState) (_ : RepositoryInst) (h : PyVal) :
    Except PyErr PackageL :=
  packageByHash w.repo h

/-- A `PackageList` instance: only an identity; `_hashes` is class
state in `WorldState`. -/
structure PackageListInst where
  plId : Nat
  deriving DecidableEq

/-- `PackageList.add` through an instance. -/
def plAddInst (w : WorldState) (_ : PackageListInst) (pkg : PackageL) :
    Except PyErr WorldState := plAdd w pkg

/-- `PackageList.__len__` through an instance: `len(self._hashes)`. -/
def plLen (w : WorldState) (_ : PackageListInst) : Nat := w.plHashes.length

/-- `PackageList.__iter__` through an instance:
`self._hashes.__iter__()` — again the class-level set. -/
def plIterInst (w : WorldState) (_ : PackageListInst) : List PyVal :=
  w.plHashes

/-- Per-`Distribution` instance state: `distribution` (the name),
`_exists`, `release_data` and the single `_packages` slot (note: one
`Optional[PackageList]`, not a per-`(component, architecture)` map). -/
structure DistState where
  name : PyStr
  existsCache : Option Bool := none
  release_data : Option ReleaseFileL := none
  packages : Option Nat := none

/-- The external collaborators of a `Distribution`: the release
resolution (`_open_file` on `InRelease`/`Release` plus the optional GPG
dance — transport and PGP are external per the spec) summarised as its
outcome, the transport byte stream for `_download_file`, `hashlib`, and
the module-level gzip decompressor `_G_ZIPPER.decompress`. -/
structure DistEnv where
  releaseResult : Except Unit ReleaseFileL
  fetch : List PyStr → List (List Nat)
  hashFn : PyStr → List Nat → PyStr
  gunzip : List Nat → List Nat

/-- `Distribution._get_release_file`: returns the cached
`release_data` if set, otherwise performs the resolution (abstracted as
`env.releaseResult`) and caches the parsed `ReleaseFile`; a missing
`Release` file surfaces as `FileNotFoundError`. -/
def getReleaseFile (env : DistEnv) (d : DistState) :
    Except PyErr (DistState × ReleaseFileL) :=
  match d.release_data with
  | some r => Except.ok (d, r)
  | none =>
    match env.releaseResult with
    | Except.error _ => Except.error PyErr.fileNotFound
    | Except.ok r => Except.ok ({ d with release_data := some r }, r)

/-- `Distribution.exists()`: cached tri-state; on first call computes
`bool(self._get_release_file())` — truthiness of a `TagBlock` goes
through `__len__` — catching `FileNotFoundError` as `False`. -/
def distExists (env : DistEnv) (d : DistState) : DistState × Bool :=
  match d.existsCache with
  | some b => (d, b)
  | none =>
    match getReleaseFile env d with
    | Except.ok (d1, r) =>
      let b := decide (r.base.lenB > 0)
      ({ d1 with existsCache := some b }, b)
    | Except.error _ => ({ d with existsCache := some false }, false)

/-- `bytes.decode('utf-8')`, modelled character-by-character. -/
def bytesToStr (bs : List Nat) : PyStr := bs.map Char.ofNat

/-- The `for package in tags.read_tag_file(contents)` import loop of
`package_list`: each stanza is registered through
`self.repo._add_package(package, package['Filename'])` and the returned
`Package` is added to the `PackageList`. -/
def importStanzas : WorldState → List TagBlockL → Except PyErr WorldState
  | w, [] => Except.ok w
  | w, stanza :: rest =>
    match stanza.getItem (pys ("Filename")) with
    | Except.error e => Except.error e
    | Except.ok fn =>
      match addPackage w.repo stanza fn with
      | Except.error e => Except.error e
      | Except.ok (rst, imported) =>
        match plAdd { w with repo := rst } imported with
        | Except.error e => Except.error e
        | Except.ok w1 => importStanzas w1 rest

/-- `'{}/binary-{}/Packages{}'.format(component, architecture, extension)`
from the reader-selection loop of `package_list`. -/
def packagesPath (component architecture extension : PyStr) : PyStr :=
  component ++ '/' :: pys ("binary-") ++ architecture ++ '/' :: pys ("Packages")
    ++ extension

/-- The download/parse/import tail of `package_list`, once a listed
`Packages` variant `fname` with FileHash `fdata` and reader `reader`
has been chosen. -/
def packageListDownload (env : DistEnv) (w : WorldState) (d : DistState)
    (plid : Nat) (fname : PyStr) (fdata : FileHashL) (reader : DecoderV) :
    Except PyErr (WorldState × DistState × Nat) :=
  let path := [pys ("dists"), d.name, fname]
  match downloadFile path fdata reader (env.fetch path) env.hashFn with
  | Except.error e => Except.error e
  | Except.ok contents =>
    match readTagFile (bytesToStr contents) with
    | Except.error e => Except.error e
    | Except.ok stanzas =>
      match importStanzas w stanzas with
      | Except.error e => Except.error e
      | Except.ok w2 => Except.ok (w2, d, plid)

/-- `Distribution.package_list(component, architecture)`.

Returns the updated world, the updated distribution state, and the
identity of the returned `PackageList`.  Mirrors the source: the single
`self._packages` cache slot checked first (ignoring the arguments); then
construction of a fresh `PackageList`; the `exists()` early return; the
`for extension, reader in [('.gz', _G_ZIPPER.decompress), ('', Ellipsis)]`
search of `release.files` (on no match the read of the never-assigned
local `file_data` raises `UnboundLocalError`); the `_download_file`
call with the chosen reader as decoder; and the
`read_tag_file`/`_add_package`/`PackageList.add` loop
(`importStanzas`). -/
def packageListFn (env : DistEnv) (w : WorldState) (d : DistState)
    (component architecture : PyStr) :
    Except PyErr (WorldState × DistState × Nat) :=
  match d.packages with
  | some plid => Except.ok (w, d, plid)
  | none =>
    let plid := w.plNextId
    let w1 := { w with plNextId := w.plNextId + 1 }
    let d1 := { d with packages := some plid }
    match distExists env d1 with
    | (d2, false) => Except.ok (w1, d2, plid)
    | (d2, true) =>
      match getReleaseFile env d2 with
      | Except.error e => Except.error e
      | Except.ok (d3, rel) =>
        match alistFind rel.files (packagesPath component architecture (pys (".gz"))) with
        | some fdata =>
          packageListDownload env w1 d3 plid
            (packagesPath component architecture (pys (".gz"))) fdata
            (DecoderV.dfn env.gunzip)
        | none =>
          match alistFind rel.files (packagesPath component architecture []) with
          | some fdata => packageListDownload env w1 d3 plid
              (packagesPath component architecture []) fdata DecoderV.dellipsis
          | none => Except.error PyErr.unboundLocalError

/-! ### The deb reader (`apt/deb.py`) -/

/-- A seekable byte stream (`io.BytesIO`). -/
structure ByteStream where
  data : List Nat
  pos : Nat
  deriving DecidableEq

/-- `stream.read(n)` for `n ≥ 0`: returns up to `n` bytes and advances. -/
def sread (s : ByteStream) (n : Nat) : List Nat × ByteStream :=
  let chunk := (s.data.drop s.pos).take n
  (chunk, { s with pos := s.pos + chunk.length })

/-- `stream.read(n)` for a Python `int` (negative reads to EOF). -/
def sreadI (s : ByteStream) (n : Int) : List Nat × ByteStream :=
  sread s (if n < 0 then s.data.length else n.toNat)

/-- ASCII whitespace accepted around a Python `int(...)` literal. -/
def pyIsSpaceByte (b : Nat) : Bool :=
  b = 32 || b = 9 || b = 10 || b = 13 || b = 11 || b = 12

/-- strip of a byte field before `int` conversion. -/
def stripBytes (s : List Nat) : List Nat :=
  ((s.dropWhile pyIsSpaceByte).reverse.dropWhile pyIsSpaceByte).reverse

/-- one ASCII decimal digit. -/
def digitVal (b : Nat) : Option Nat :=
  if 48 ≤ b ∧ b ≤ 57 then some (b - 48) else none

/-- digits of `base` (8 or 10) to a natural number. -/
def parseDigitsAux (base : Nat) : List Nat → Nat → Option Nat
  | [], acc => some acc
  | b :: bs, acc =>
    match digitVal b with
    | some d => if d < base then parseDigitsAux base bs (acc * base + d) else none
    | none => none

/-- Python `int(bytes, base)` on the digit strings AR headers contain:
surrounding whitespace stripped, optional sign, at least one digit.
(Prefix forms such as `0o17` are not modelled; no AR producer emits
them.)  `none` models the `ValueError`. -/
def parseIntBytes (base : Nat) (s : List Nat) : Option Int :=
  match stripBytes s with
  | [] => none
  | 43 :: ds => if ds = [] then none else (parseDigitsAux base ds 0).map Int.ofNat
  | 45 :: ds =>
    if ds = [] then none
    else (parseDigitsAux base ds 0).map (fun n => -(Int.ofNat n))
  | ds => (parseDigitsAux base ds 0).map Int.ofNat

/-- `name.rstrip(b' ')`: only the space byte. -/
def rstripSpaceBytes (s : List Nat) : List Nat :=
  (s.reverse.dropWhile (fun b => b = 32)).reverse

/-- `apt.deb.ARRecord`. -/
structure ARRecord where
  name : List Nat
  modified : Int
  owner : Int
  group : Int
  mode : Int
  size : Int
  deriving DecidableEq

/-- `ARRecord.__init__` on the 60 unpacked header bytes
(`struct.Struct('16s12s6s6s8s10s2s')`): magic must be `0x60 0x0A`, the
name is right-stripped of spaces, the numeric fields are parsed in
decimal (mode in octal). -/
def mkARRecord (data : List Nat) : Except PyErr ARRecord :=
  let nameF := data.take 16
  let modifiedF := (data.drop 16).take 12
  let ownerF := (data.drop 28).take 6
  let groupF := (data.drop 34).take 6
  let modeF := (data.drop 40).take 8
  let sizeF := (data.drop 48).take 10
  let magicF := (data.drop 58).take 2
  if magicF ≠ [96, 10] then
    Except.error (PyErr.valueError (pys ("Invalid file signature")))
  else
    match parseIntBytes 10 modifiedF, parseIntBytes 10 ownerF,
        parseIntBytes 10 groupF, parseIntBytes 8 modeF,
        parseIntBytes 10 sizeF with
    | some m, some o, some g, some mo, some sz =>
      Except.ok { name := rstripSpaceBytes nameF, modified := m, owner := o,
                  group := g, mode := mo, size := sz }
    | _, _, _, _, _ =>
      Except.error (PyErr.valueError (pys ("invalid literal for int")))

/-- `_consume_ar_header`: the 8 magic bytes `b'!<arch>\n'`. -/
def arMagic : List Nat := [33, 60, 97, 114, 99, 104, 62, 10]

/-- `_read_file_header`: reads 60 bytes; fewer means EOF (`None`);
otherwise unpacks an `ARRecord` (whose constructor may raise). -/
def readFileHeader (s : ByteStream) :
    Except PyErr (Option ARRecord × ByteStream) :=
  let (data, s1) := sread s 60
  if data.length ≠ 60 then Except.ok (none, s1)
  else (mkARRecord data).map (fun r => (some r, s1))

/-- `_read_file`: reads `file.size` bytes of content, then one padding
byte when `size` is odd. -/
def readFileRec (s : ByteStream) (f : ARRecord) : List Nat × ByteStream :=
  let (data, s1) := sreadI s f.size
  if f.size % 2 ≠ 0 then
    let (_, s2) := sread s1 1
    (data, s2)
  else (data, s1)

/-- `str.encode` view of a literal used for byte comparisons. -/
def strBytes (s : PyStr) : List Nat := s.map Char.toNat

/-- `apt.deb.extract_control_file(deb)`.

`tar` abstracts the `tarfile` stdlib (an external codec per the spec):
`tar bytes` yields the members of the TAR stream opened on `bytes`, in
`getnames()` order, each with its extracted contents.  The source:
validate the AR magic; require record 1 named `debian-binary` with body
exactly `b'2.0\n'`; require record 2 named `control.tar*`; open its body
as TAR; return `next(read_tag_file(...))` of the first member named
`./control` or `control`; otherwise `ValueError`.  A `None` record (EOF)
makes the `file.name` access raise `AttributeError`. -/
def extractControlFile (tar : List Nat → Except PyErr (List (PyStr × List Nat)))
    (deb : List Nat) : Except PyErr TagBlockL :=
  let s0 : ByteStream := { data := deb, pos := 0 }
  let (m, s1) := sread s0 8
  if m ≠ arMagic then
    Except.error (PyErr.valueError (pys ("Stream is not a valid debian archive")))
  else
    match readFileHeader s1 with
    | Except.error e => Except.error e
    | Except.ok (none, _) => Except.error PyErr.attributeError
    | Except.ok (some rec1, s2) =>
      if rec1.name ≠ strBytes (pys ("debian-binary")) then
        Except.error
          (PyErr.valueError (pys ("Archive does not start with debian-binary file")))
      else
        let (buffer, s3) := readFileRec s2 rec1
        if buffer ≠ [50, 46, 48, 10] then
          Except.error
            (PyErr.valueError (pys ("Archive does not have debian-binary version 2.0")))
        else
          match readFileHeader s3 with
          | Except.error e => Except.error e
          | Except.ok (none, _) => Except.error PyErr.attributeError
          | Except.ok (some rec2, s4) =>
            if ¬ (strBytes (pys ("control.tar"))).isPrefixOf rec2.name then
              Except.error
                (PyErr.valueError (pys ("Archive does not have control.tar file")))
            else
              let (controlData, _) := readFileRec s4 rec2
              match tar controlData with
              | Except.error e => Except.error e
              | Except.ok members =>
                match members.find?
                    (fun mem => mem.1 = pys ("./control") || mem.1 = pys ("control")) with
                | some mem =>
                  match readTagFile (bytesToStr mem.2) with
                  | Except.ok (b :: _) => Except.ok b
                  | Except.ok [] => Except.error PyErr.stopIteration
                  | Except.error e => Except.error e
                | none =>
                  Except.error
                    (PyErr.valueError (pys ("control.tar does not contain a control file")))

/-- A decoder argument as the callers of `_download_file` may legally
supply it (`None` or a function); claim C2 quantifies over these. -/
def optDecoder : Option (List Nat → List Nat) → DecoderV
  | none => DecoderV.dnone
  | some f => DecoderV.dfn f

/-- The effect of an `optDecoder` on one block. -/
def optApply : Option (List Nat → List Nat) → List Nat → List Nat
  | none, b => b
  | some f, b => f b

/-- The lines `formatProp k v` contributes to the serialized stanza:
one `k: v` line when the value is single-line, otherwise a bare `k:`
header followed by one space-prefixed continuation line per value
line.  (Proof-side decomposition of `_write_property`; compare
`formatProp`.) -/
def pairLines (k v : PyStr) : List PyStr :=
  if '\n' ∈ v then (k ++ [':']) :: (splitNl v).map (fun l => ' ' :: l)
  else [k ++ ':' :: ' ' :: v]

/-- The blocks claim C1 quantifies over: a `TagBlock` exactly as
`read_tag_file` can produce it.  The bookkeeping lists are empty (the
default template), the field order is the dictionary order, keys are
distinct and parseable back (`validKey`), and every line of every value
is non-blank with no leading or trailing whitespace — which covers the
claim's provisos (no stray carriage returns, continuation lines with
exactly the one serializer-added leading space). -/
def ParseableBlock (b : TagBlockL) : Prop :=
  b.required = [] ∧ b.order_last = [] ∧ b.magic = [] ∧
  b.dict ≠ [] ∧ b.order_first = b.dict.map (fun p => p.1) ∧
  (b.dict.map (fun p => p.1)).Nodup ∧
  ∀ p ∈ b.dict, validKey p.1 = true ∧ ∀ l ∈ splitNl p.2, validLine l = true

/-! ## Theorems -/

theorem downloadLoop_dnone (blocks : List (List Nat)) (acc : List Nat) :
    downloadLoop DecoderV.dnone blocks acc = Except.ok (acc ++ blocks.flatten) := by
  induction blocks generalizing acc with
  | nil => simp [downloadLoop]
  | cons b bs ih => simp [downloadLoop, applyDecoder, ih]

theorem downloadLoop_dfn (f : List Nat → List Nat) (blocks : List (List Nat))
    (acc : List Nat) :
    downloadLoop (DecoderV.dfn f) blocks acc =
      Except.ok (acc ++ (blocks.map f).flatten) := by
  induction blocks generalizing acc with
  | nil => simp [downloadLoop]
  | cons b bs ih => simp [downloadLoop, applyDecoder, ih]

/-- Claim C2: the checksumming downloader `_download_file`, for a call
with a selected hash (`hname`, declared hex value `hval`), a declared
size slot, and a legal decoder (`None` or a function): the digest and
the byte counter are computed over the raw pre-decoding stream
`blocks.flatten`; when both agree with the declared `FileHash` the call
returns exactly the decoded bytes; when either disagrees the call
raises `IncorrectChecksumException` naming the requested path and
returns no buffer. -/
theorem C2_download_checksum (path : List PyStr) (hashes : FileHashL)
    (hname : PyStr) (hval : PyStr) (dec : Option (List Nat → List Nat))
    (blocks : List (List Nat)) (hashFn : PyStr → List Nat → PyStr)
    (hsel : selectHash hashes = some (hname, PyVal.pstr hval))
    (hsz : hashes.size ≠ PyVal.pellipsis) :
    (hashFn hname blocks.flatten = hval ∧
        PyVal.pint (blocks.flatten).length = hashes.size →
      downloadFile path hashes (optDecoder dec) blocks hashFn =
        Except.ok ((blocks.map (optApply dec)).flatten)) ∧
    (¬ (hashFn hname blocks.flatten = hval ∧
        PyVal.pint (blocks.flatten).length = hashes.size) →
      downloadFile path hashes (optDecoder dec) blocks hashFn =
        Except.error (PyErr.incorrectChecksum
          (pys ("Invalid checksum for ") ++ joinSlash path))) := by
  have hloop : downloadLoop (optDecoder dec) blocks [] =
      Except.ok ((blocks.map (optApply dec)).flatten) := by
    cases dec with
    | none =>
      have hmap : List.map (optApply none) blocks = blocks := by
        induction blocks with
        | nil => rfl
        | cons a l ih => simp [optApply, ih]
      rw [optDecoder, hmap]
      simpa using downloadLoop_dnone blocks []
    | some f =>
      have hmap : List.map (optApply (some f)) blocks = List.map f blocks := by
        induction blocks with
        | nil => rfl
        | cons a l ih => simp [optApply, ih]
      rw [optDecoder, hmap]
      simpa using downloadLoop_dfn f blocks []
  constructor
  · intro h
    simp only [downloadFile, if_neg hsz, hsel, hloop]
    rw [if_pos ⟨by rw [h.1], h.2⟩]
  · intro h
    simp only [downloadFile, if_neg hsz, hsel, hloop]
    rw [if_neg (by
      intro hc
      exact h ⟨PyVal.pstr.inj hc.1, hc.2⟩)]

/-- Closed witness for C2: a two-block stream with a matching digest and
size is returned decoded; flipping the declared size produces the
`IncorrectChecksum` error. -/
theorem C2_download_checksum_witness :
    downloadFile [pys ("p")]
        { filename := PyVal.pstr [], size := PyVal.pint 3,
          sha256 := PyVal.pstr (pys ("dg")) }
        (optDecoder (some (fun b => b ++ [9]))) [[1], [2, 3]]
        (fun _ _ => pys ("dg")) = Except.ok [1, 9, 2, 3, 9] ∧
    downloadFile [pys ("p")]
        { filename := PyVal.pstr [], size := PyVal.pint 4,
          sha256 := PyVal.pstr (pys ("dg")) }
        (optDecoder (some (fun b => b ++ [9]))) [[1], [2, 3]]
        (fun _ _ => pys ("dg")) =
      Except.error (PyErr.incorrectChecksum (pys ("Invalid checksum for p"))) := by
  constructor
  · have h := (C2_download_checksum [pys ("p")]
      { filename := PyVal.pstr [], size := PyVal.pint 3,
        sha256 := PyVal.pstr (pys ("dg")) }
      (pys ("sha256")) (pys ("dg")) (some (fun b => b ++ [9])) [[1], [2, 3]]
      (fun _ _ => pys ("dg")) (by decide) (by decide)).1 (by decide)
    simpa using h
  · have h := (C2_download_checksum [pys ("p")]
      { filename := PyVal.pstr [], size := PyVal.pint 4,
        sha256 := PyVal.pstr (pys ("dg")) }
      (pys ("sha256")) (pys ("dg")) (some (fun b => b ++ [9])) [[1], [2, 3]]
      (fun _ _ => pys ("dg")) (by decide) (by decide)).2 (by decide)
    simpa using h

/-- Claim C3 (code bug): the hash-selection of `_download_file` tests the
slots against `Ellipsis` while an unset `FileHash` slot holds `None`:
(a) for a FileHash whose only populated hash is `sha1`, the unpopulated
`sha256` slot (value `None`) is selected and every completed download
raises `IncorrectChecksum` — the populated `sha1` is never used;
(b) with every slot set to `Ellipsis` the call raises
`UnboundLocalError` (reading the never-assigned `hash_func`), not the
`ValueError('No valid hash supplied')` the claim calls the
no-valid-hash error; (c) an unset (`None`) size slot passes the
`NoSize` check, the stream is read, and the call ends in
`IncorrectChecksum`. -/
theorem C3_hash_selection_wrong_sentinel :
    (∀ (hashFn : PyStr → List Nat → PyStr) (blocks : List (List Nat)),
      selectHash
          { filename := PyVal.pstr [], sha1 := PyVal.pstr (pys ("aa")),
            size := PyVal.pint 2 } = some (pys ("sha256"), PyVal.pnone) ∧
      downloadFile [pys ("f")]
          { filename := PyVal.pstr [], sha1 := PyVal.pstr (pys ("aa")),
            size := PyVal.pint 2 } DecoderV.dnone blocks hashFn =
        Except.error (PyErr.incorrectChecksum (pys ("Invalid checksum for f")))) ∧
    (∀ (hashFn : PyStr → List Nat → PyStr) (blocks : List (List Nat)),
      downloadFile [pys ("f")]
          { filename := PyVal.pstr [], size := PyVal.pint 2,
            md5 := PyVal.pellipsis, sha1 := PyVal.pellipsis,
            sha256 := PyVal.pellipsis, sha512 := PyVal.pellipsis }
          DecoderV.dnone blocks hashFn = Except.error PyErr.unboundLocalError) ∧
    (∀ (hashFn : PyStr → List Nat → PyStr) (blocks : List (List Nat)),
      downloadFile [pys ("f")]
          { filename := PyVal.pstr [], sha256 := PyVal.pstr (pys ("aa")) }
          DecoderV.dnone blocks hashFn =
        Except.error (PyErr.incorrectChecksum (pys ("Invalid checksum for f")))) := by
  refine ⟨fun hashFn blocks => ⟨by decide, ?_⟩, fun hashFn blocks => ?_,
    fun hashFn blocks => ?_⟩
  · simp [downloadFile, selectHash, downloadLoop_dnone]
    decide
  · simp [downloadFile, selectHash, downloadLoop_dnone]
  · simp [downloadFile, selectHash, downloadLoop_dnone]
    decide

/-- Claim C7 (code bug): reading a magic checksum field of a
`ReleaseFile` with a non-empty `files` map always raises
`AttributeError`: the per-file test `key not in info` falls back to
integer-indexed iteration on the `FileHash`, whose `__getitem__` calls
`.lower()` on the integer index.  No line is ever emitted.  Only the
empty-`files` case reaches the "absent" (`None`) result. -/
theorem C7_release_magic_read_crashes (r : ReleaseFileL) (k : PyStr)
    (hk : k ∈ r.base.magic) :
    (r.files ≠ [] → r.getItem k = Except.error PyErr.attributeError) ∧
    (r.files = [] → r.getItem k = Except.ok none) := by
  constructor
  · intro hne
    cases hs : sortByFilename (r.files.map (fun p => p.2)) with
    | nil =>
      exfalso
      have hlen := congrArg List.length hs
      rw [sortByFilename, List.length_mergeSort, List.length_map] at hlen
      exact hne (List.length_eq_zero.mp hlen)
    | cons a rest =>
      simp [ReleaseFileL.getItem, hk, hs, releaseHashLines,
        FileHashL.containsTest]
  · intro he
    simp [ReleaseFileL.getItem, hk, he, sortByFilename, List.mergeSort,
      releaseHashLines]

/-- Witness for C7: a release file with one populated `FileHash` crashes
on reading `SHA256`; with no files the read yields `None`. -/
theorem C7_release_magic_read_crashes_witness :
    ReleaseFileL.getItem
        { base := { magic := releaseMagic },
          files := [(pys ("a"),
            { filename := PyVal.pstr (pys ("a")), size := PyVal.pint 3,
              sha256 := PyVal.pstr (pys ("aa")) })] } (pys ("SHA256")) =
      Except.error PyErr.attributeError ∧
    ReleaseFileL.getItem { base := { magic := releaseMagic }, files := [] }
        (pys ("SHA256")) = Except.ok none := by
  constructor
  · exact (C7_release_magic_read_crashes
      { base := { magic := releaseMagic },
        files := [(pys ("a"),
          { filename := PyVal.pstr (pys ("a")), size := PyVal.pint 3,
            sha256 := PyVal.pstr (pys ("aa")) })] } (pys ("SHA256"))
      (by decide)).1 (by decide)
  · exact (C7_release_magic_read_crashes
      { base := { magic := releaseMagic }, files := [] } (pys ("SHA256"))
      (by decide)).2 rfl

theorem downloadLoop_dellipsis (b : List Nat) (bs : List (List Nat))
    (acc : List Nat) :
    downloadLoop DecoderV.dellipsis (b :: bs) acc =
      Except.error PyErr.typeError := rfl

/-- Claim C5 (code bug): `Distribution.package_list` caches one single
`_packages` slot and consults it before looking at its arguments: after
a first call with any `(component, architecture)` pair, a second call
with *any* pair — here an arbitrary different one — returns the very
`PackageList` object constructed for the first pair (same identity
`w.plNextId`), and constructs nothing new (the world, including the
allocation counter, is unchanged).  Stated for a distribution that does
not exist, where the cache slot is populated and returned before the
download phase. -/
theorem C5_package_list_memoized_per_distribution (env : DistEnv)
    (w : WorldState) (name c1 a1 c2 a2 : PyStr)
    (hrel : env.releaseResult = Except.error ()) :
    ∃ w1 d1,
      packageListFn env w { name := name } c1 a1 =
        Except.ok (w1, d1, w.plNextId) ∧
      packageListFn env w1 d1 c2 a2 = Except.ok (w1, d1, w.plNextId) ∧
      w1.plNextId = w.plNextId + 1 := by
  refine ⟨{ w with plNextId := w.plNextId + 1 },
    { name := name, existsCache := some false, packages := some w.plNextId },
    ?_, ?_, rfl⟩
  · simp [packageListFn, distExists, getReleaseFile, hrel]
  · simp [packageListFn]

/-- Witness for C5 at a concrete environment and distribution. -/
theorem C5_package_list_memoized_per_distribution_witness :
    ∃ w1 d1,
      packageListFn ⟨Except.error (), fun _ => [], fun _ _ => [], id⟩ {}
          { name := pys ("stable") } (pys ("main")) (pys ("amd64")) =
        Except.ok (w1, d1, 0) ∧
      packageListFn ⟨Except.error (), fun _ => [], fun _ _ => [], id⟩ w1 d1
          (pys ("contrib")) (pys ("arm")) = Except.ok (w1, d1, 0) ∧
      w1.plNextId = 1 :=
  C5_package_list_memoized_per_distribution
    ⟨Except.error (), fun _ => [], fun _ _ => [], id⟩ {} (pys ("stable"))
    (pys ("main")) (pys ("amd64")) (pys ("contrib")) (pys ("arm")) rfl

/-- Claim C6 (code bug): for an existing distribution:
(a) when `release.files` lists only the *uncompressed*
`{component}/binary-{architecture}/Packages` entry, `package_list`
passes `Ellipsis` as the decoder (it is truthy, so
`decoder(block) if decoder else block` calls it) and any non-empty
stream dies with `TypeError` — the file is never parsed into a
PackageList; (b) when neither the `.gz` nor the plain entry is listed,
the `if not file_data` test reads the never-assigned local and raises
`UnboundLocalError`, not the `FileNotFoundError` the code means to
raise. -/
theorem C6_package_list_uncompressed_bugs (env : DistEnv) (w : WorldState)
    (name c a : PyStr) (rel : ReleaseFileL) (fdata : FileHashL)
    (hname : PyStr) (hn : PyVal) (b : List Nat) (bs : List (List Nat)) :
    ((alistFind rel.files (packagesPath c a (pys (".gz"))) = none) →
      (alistFind rel.files (packagesPath c a []) = some fdata) →
      fdata.size ≠ PyVal.pellipsis →
      selectHash fdata = some (hname, hn) →
      env.fetch [pys ("dists"), name, packagesPath c a []] = b :: bs →
      packageListFn env w
          { name := name, existsCache := some true, release_data := some rel }
          c a = Except.error PyErr.typeError) ∧
    ((alistFind rel.files (packagesPath c a (pys (".gz"))) = none) →
      (alistFind rel.files (packagesPath c a []) = none) →
      packageListFn env w
          { name := name, existsCache := some true, release_data := some rel }
          c a = Except.error PyErr.unboundLocalError) := by
  constructor
  · intro hgz hplain hsz hsel hfetch
    simp only [packageListFn, distExists, getReleaseFile]
    simp only [hgz, hplain]
    simp only [packageListDownload, hfetch, downloadFile, if_neg hsz, hsel,
      downloadLoop_dellipsis]
  · intro hgz hplain
    simp only [packageListFn, distExists, getReleaseFile]
    simp only [hgz, hplain]

/-- Witness for C6 at a concrete release table and stream. -/
theorem C6_package_list_uncompressed_bugs_witness :
    packageListFn
        ⟨Except.ok
          { base := { magic := releaseMagic },
            files := [(packagesPath (pys ("main")) (pys ("amd64")) [],
              { filename := PyVal.pstr (packagesPath (pys ("main")) (pys ("amd64")) []),
                size := PyVal.pint 1,
                sha256 := PyVal.pstr (pys ("hh")) })] },
          fun _ => [[65]], fun _ _ => pys ("hh"), id⟩ {}
        { name := pys ("stable"), existsCache := some true,
          release_data := some
            { base := { magic := releaseMagic },
              files := [(packagesPath (pys ("main")) (pys ("amd64")) [],
                { filename := PyVal.pstr (packagesPath (pys ("main")) (pys ("amd64")) []),
                  size := PyVal.pint 1,
                  sha256 := PyVal.pstr (pys ("hh")) })] } }
        (pys ("main")) (pys ("amd64")) = Except.error PyErr.typeError ∧
    packageListFn
        ⟨Except.ok { base := { magic := releaseMagic }, files := [] },
          fun _ => [], fun _ _ => [], id⟩ {}
        { name := pys ("stable"), existsCache := some true,
          release_data := some { base := { magic := releaseMagic }, files := [] } }
        (pys ("main")) (pys ("amd64")) = Except.error PyErr.unboundLocalError := by
  constructor
  · exact (C6_package_list_uncompressed_bugs _ {} (pys ("stable")) (pys ("main"))
      (pys ("amd64")) _
      { filename := PyVal.pstr (packagesPath (pys ("main")) (pys ("amd64")) []),
        size := PyVal.pint 1, sha256 := PyVal.pstr (pys ("hh")) }
      (pys ("sha256")) (PyVal.pstr (pys ("hh"))) [65] []).1
      (by decide) (by decide) (by decide) (by decide) rfl
  · exact (C6_package_list_uncompressed_bugs _ {} (pys ("stable")) (pys ("main"))
      (pys ("amd64")) _ { filename := PyVal.pnone } [] PyVal.pnone [] []).2
      (by decide) (by decide)

theorem alistFind_append {α β : Type} [BEq α] (d1 d2 : List (α × β)) (k : α) :
    alistFind (d1 ++ d2) k =
      (match alistFind d1 k with
        | some v => some v
        | none => alistFind d2 k) := by
  induction d1 with
  | nil => simp [alistFind]
  | cons p d ih =>
    by_cases hp : p.1 == k
    · simp [alistFind, hp]
    · simp [alistFind, hp, ih]

theorem alistFind_map_set_ne {α β : Type} [BEq α] [LawfulBEq α]
    (d : List (α × β)) (k k0 : α) (v : β) (hk : (k0 == k) = false) :
    alistFind (d.map (fun p => if p.1 == k then (k, v) else p)) k0 =
      alistFind d k0 := by
  induction d with
  | nil => rfl
  | cons p d ih =>
    by_cases hp : p.1 == k
    · have hp1 : p.1 = k := eq_of_beq hp
      have hkk0 : (k == k0) = false := by
        rw [beq_eq_false_iff_ne] at hk ⊢
        exact fun h => hk h.symm
      have hpk0 : (p.1 == k0) = false := by rw [hp1]; exact hkk0
      simp [alistFind, hp, hkk0, hpk0, ih]
    · simp only [List.map_cons, if_neg hp, alistFind, ih]

theorem alistFind_map_set_eq {α β : Type} [BEq α] [LawfulBEq α]
    (d : List (α × β)) (k k0 : α) (v : β) (hk : (k0 == k) = true)
    (hhas : alistHas d k = true) :
    alistFind (d.map (fun p => if p.1 == k then (k, v) else p)) k0 =
      some v := by
  have hk2 : (k == k0) = true := by
    rw [beq_iff_eq] at hk ⊢
    exact hk.symm
  induction d with
  | nil => simp [alistHas, alistFind] at hhas
  | cons p d ih =>
    by_cases hp : p.1 == k
    · simp [alistFind, hp, hk2]
    · have hhas' : alistHas d k = true := by
        simp only [alistHas, alistFind, if_neg hp] at hhas
        exact hhas
      have hpk0 : (p.1 == k0) = false := by
        rw [beq_eq_false_iff_ne]
        intro h
        rw [beq_iff_eq] at hk
        exact hp (by rw [h, hk]; simp)
      simp only [List.map_cons, if_neg hp, alistFind, hpk0, if_neg,
        Bool.false_eq_true, not_false_eq_true, ih hhas']

theorem alistFind_alistSet {α β : Type} [BEq α] [LawfulBEq α]
    (d : List (α × β)) (k k0 : α) (v : β) :
    alistFind (alistSet d k v) k0 =
      if k0 == k then some v else alistFind d k0 := by
  rw [alistSet]
  by_cases hhas : alistHas d k
  · rw [if_pos hhas]
    by_cases hk : k0 == k
    · rw [alistFind_map_set_eq d k k0 v hk hhas, if_pos hk]
    · rw [alistFind_map_set_ne d k k0 v (by simpa using hk),
        if_neg hk]
  · rw [if_neg hhas, alistFind_append]
    by_cases hk : k0 == k
    · have hk' : k0 = k := eq_of_beq hk
      subst hk'
      have hnone : alistFind d k0 = none := by
        cases h : alistFind d k0 with
        | none => rfl
        | some w => exact absurd (by simp [alistHas, h]) hhas
      rw [hnone]
      simp [alistFind, hk]
    · cases hfound : alistFind d k0 with
      | some w => simp [hfound, hk]
      | none =>
        have hk' : (k0 == k) = false := by simpa using hk
        have hkk0 : (k == k0) = false := by
          rw [beq_eq_false_iff_ne]
          intro h
          rw [beq_eq_false_iff_ne] at hk'
          exact hk' h.symm
        simp [hfound, alistFind, hk, hkk0]

/-- A successful `_add_package` leaves the returned package reachable in
`_pool` under some key (the SHA256 key it used). -/
theorem addPackage_pool_mem (st0 : RepoClassState) (stanza : TagBlockL)
    (fn : PyStr) (st2 : RepoClassState) (p : PackageL)
    (haddp : addPackage st0 stanza fn = Except.ok (st2, p)) :
    ∃ h, alistFind st2.pool h = some p := by
  rw [addPackage] at haddp
  cases hc1 : checkField stanza fn (pys ("SHA256")) with
  | error e => simp only [hc1] at haddp; exact absurd haddp (by simp)
  | ok sha =>
  simp only [hc1] at haddp
  cases hc2 : checkField stanza fn (pys ("Filename")) with
  | error e => simp only [hc2] at haddp; exact absurd haddp (by simp)
  | ok fnv =>
  simp only [hc2] at haddp
  cases hc3 : checkField stanza fn (pys ("Package")) with
  | error e => simp only [hc3] at haddp; exact absurd haddp (by simp)
  | ok pnv =>
  simp only [hc3] at haddp
  cases hc4 : checkField stanza fn (pys ("Version")) with
  | error e => simp only [hc4] at haddp; exact absurd haddp (by simp)
  | ok vnv =>
  simp only [hc4] at haddp
  cases hfind : alistFind st0.pool (PyVal.pstr sha) with
  | some pkg0 =>
    simp only [hfind, Except.ok.injEq, Prod.mk.injEq] at haddp
    obtain ⟨h1, h2⟩ := haddp
    subst h1; subst h2
    exact ⟨PyVal.pstr sha, hfind⟩
  | none =>
    simp only [hfind] at haddp
    rw [registerPackage] at haddp
    cases hmk : mkPackage stanza with
    | error e => simp only [hmk] at haddp; exact absurd haddp (by simp)
    | ok pkgN =>
    simp only [hmk] at haddp
    cases hg1 : pkgN.getItem (pys ("SHA256")) with
    | error e => simp only [hg1] at haddp; exact absurd haddp (by simp)
    | ok shaV =>
    cases hg2 : pkgN.getItem (pys ("Package")) with
    | error e => simp only [hg1, hg2] at haddp; exact absurd haddp (by simp)
    | ok pkgName =>
    cases hg3 : pkgN.getItem (pys ("Version")) with
    | error e => simp only [hg1, hg2, hg3] at haddp; exact absurd haddp (by simp)
    | ok verV =>
    simp only [hg1, hg2, hg3, Except.ok.injEq, Prod.mk.injEq] at haddp
    obtain ⟨h1, h2⟩ := haddp
    subst h2
    refine ⟨shaV, ?_⟩
    rw [← h1]
    simp [alistFind_alistSet]

/-- Claim C10: `_pool`, `_distributions`, `_pool_by_package` are class
attributes of `Repository`, and `_hashes` is a class attribute of
`PackageList`; no instance ever assigns these names, and all mutations
act in place on the class-held containers.  Hence: a package registered
through instance `r1` is found by `package_by_hash` through any other
instance `r2` (under the SHA256 key the registration used); a
distribution created through `r1` appears in `r2.distributions()`; and a
hash added through one `PackageList` instance is seen when iterating (or
measuring) any other. -/
theorem C10_class_level_state_shared (w : WorldState) (r1 r2 : RepositoryInst)
    (pl1 pl2 : PackageListInst) (stanza : TagBlockL) (fn name : PyStr)
    (pkg : PackageL) (sha : PyVal) :
    (∀ w1 p, repoAddPackage w r1 stanza fn = Except.ok (w1, p) →
      ∃ h, repoPackageByHash w1 r2 h = Except.ok p) ∧
    (name ∈ repoDistributions (repoDistribution w r1 name) r2) ∧
    (pkg.getItem (pys ("SHA256")) = Except.ok sha →
      ∀ w1, plAddInst w pl1 pkg = Except.ok w1 →
        plIterInst w1 pl2 = setAdd (plIterInst w pl1) sha ∧
        plLen w1 pl2 = (setAdd w.plHashes sha).length) := by
  refine ⟨?_, ?_, ?_⟩
  · intro w1 p hadd
    rw [repoAddPackage] at hadd
    cases haddp : addPackage w.repo stanza fn with
    | error e => simp only [haddp] at hadd; exact absurd hadd (by simp)
    | ok stp =>
      obtain ⟨st, p0⟩ := stp
      simp only [haddp, Except.ok.injEq, Prod.mk.injEq] at hadd
      obtain ⟨hw1, hp⟩ := hadd
      obtain ⟨h, hh⟩ := addPackage_pool_mem w.repo stanza fn st p0 haddp
      refine ⟨h, ?_⟩
      rw [← hw1, ← hp, repoPackageByHash, packageByHash]
      simp [hh]
  · by_cases hmem : name ∈ w.repo.distributions
    · simp [repoDistribution, repoDistributions, hmem]
    · simp [repoDistribution, repoDistributions, hmem]
  · intro hsha w1 hadd
    rw [plAddInst, plAdd, hsha] at hadd
    have : w1 = { w with plHashes := setAdd w.plHashes sha } := by
      simpa using hadd.symm
    subst this
    exact ⟨rfl, rfl⟩

/-- Witness for C10: a concrete stanza registered through one instance
is visible through another; similarly for distributions and the shared
PackageList hash set. -/
theorem C10_class_level_state_shared_witness :
    (∀ w1 p, repoAddPackage {} ⟨pys ("r1")⟩
        { order_first := [pys ("SHA256"), pys ("Filename"), pys ("Package"),
            pys ("Version")],
          dict := [(pys ("SHA256"), pys ("s")), (pys ("Filename"), pys ("f")),
            (pys ("Package"), pys ("x")), (pys ("Version"), pys ("1"))] }
        (pys ("f")) = Except.ok (w1, p) →
      ∃ h, repoPackageByHash w1 ⟨pys ("r2")⟩ h = Except.ok p) ∧
    (pys ("stable") ∈ repoDistributions
      (repoDistribution {} ⟨pys ("r1")⟩ (pys ("stable"))) ⟨pys ("r2")⟩) := by
  refine ⟨?_, ?_⟩
  · exact (C10_class_level_state_shared {} ⟨pys ("r1")⟩ ⟨pys ("r2")⟩ ⟨0⟩ ⟨1⟩
      { order_first := [pys ("SHA256"), pys ("Filename"), pys ("Package"),
          pys ("Version")],
        dict := [(pys ("SHA256"), pys ("s")), (pys ("Filename"), pys ("f")),
          (pys ("Package"), pys ("x")), (pys ("Version"), pys ("1"))] }
      (pys ("f")) (pys ("stable")) { tag := {}, hashes := { filename := PyVal.pnone } }
      PyVal.pnone).1
  · exact (C10_class_level_state_shared {} ⟨pys ("r1")⟩ ⟨pys ("r2")⟩ ⟨0⟩ ⟨1⟩
      {} (pys ("f")) (pys ("stable")) { tag := {}, hashes := { filename := PyVal.pnone } }
      PyVal.pnone).2.1

theorem alistFind_eq_none_of_not_mem {α β : Type} [BEq α] [LawfulBEq α]
    (d : List (α × β)) (k : α) (h : k ∉ d.map (fun p => p.1)) :
    alistFind d k = none := by
  induction d with
  | nil => rfl
  | cons p rest ih =>
    simp only [List.map_cons, List.mem_cons, not_or] at h
    have hp : (p.1 == k) = false := by
      rw [beq_eq_false_iff_ne]
      exact fun hh => h.1 hh.symm
    simp [alistFind, hp, ih h.2]

theorem alistFind_reverse_of_nodup {α β : Type} [BEq α] [LawfulBEq α]
    (d : List (α × β)) (k : α) (hnd : (d.map (fun p => p.1)).Nodup) :
    alistFind d.reverse k = alistFind d k := by
  induction d with
  | nil => rfl
  | cons p rest ih =>
    simp only [List.map_cons, List.nodup_cons] at hnd
    rw [List.reverse_cons, alistFind_append]
    by_cases hp : p.1 == k
    · have hp1 : p.1 = k := eq_of_beq hp
      have hnone : alistFind rest k = none :=
        alistFind_eq_none_of_not_mem rest k (by rw [← hp1]; exact hnd.1)
      rw [ih hnd.2, hnone]
      simp [alistFind, hp]
    · rw [ih hnd.2]
      cases hfound : alistFind rest k with
      | some w => simp [alistFind, hp, hfound]
      | none => simp [alistFind, hp, hfound]

theorem slotSet_magic_sha256 (h : FileHashL) (k : PyStr) (v : PyVal)
    (hk : k ∈ packageMagic) :
    (h.slotSet k v).sha256 =
      (if k = pys ("SHA256") then v else h.sha256) := by
  simp only [packageMagic, List.mem_cons, List.mem_singleton] at hk
  obtain ⟨f, s, m, a, b, c⟩ := h
  rcases hk with rfl | rfl | rfl | rfl | (rfl | h0)
  · rw [if_neg (by decide)]; rfl
  · rw [if_neg (by decide)]; rfl
  · rw [if_neg (by decide)]; rfl
  · rw [if_pos rfl]; rfl
  · rw [if_neg (by decide)]; rfl
  · exact absurd h0 (by simp)

theorem packageSetItem_magic (p : PackageL) (k v : PyStr)
    (hk : k ∈ p.tag.magic) :
    p.setItem k v =
      Except.ok { p with hashes := p.hashes.slotSet k (PyVal.pstr v) } := by
  simp [PackageL.setItem, hk]

theorem packageSetItem_plain (p : PackageL) (k v : PyStr)
    (hk : k ∉ p.tag.magic) :
    p.setItem k v = Except.ok { p with tag := { p.tag with
      order_first :=
        if k ∉ p.tag.order_first ∧ k ∉ p.tag.order_last
        then p.tag.order_first ++ [k] else p.tag.order_first,
      dict := alistSet p.tag.dict k v } } := by
  simp only [PackageL.setItem, TagBlockL.setItem, if_neg hk]
  rfl

/-- Effect of the `Package.__init__` dict-copy loop on the fields the
registration later reads: the fold always succeeds, keeps the magic
list, leaves the `sha256` hash slot holding the *last* `SHA256` value of
the stanza (or untouched), and makes non-magic keys look up to their
last stanza occurrence. -/
theorem setItemsFold_spec (kvs : List (PyStr × PyStr)) :
    ∀ p : PackageL, p.tag.magic = packageMagic →
    ∃ q, setItemsFold p kvs = Except.ok q ∧ q.tag.magic = packageMagic ∧
      q.hashes.sha256 =
        (match alistFind kvs.reverse (pys ("SHA256")) with
          | some v => PyVal.pstr v
          | none => p.hashes.sha256) ∧
      (∀ k0, k0 ∉ packageMagic →
        alistFind q.tag.dict k0 =
          (match alistFind kvs.reverse k0 with
            | some v => some v
            | none => alistFind p.tag.dict k0)) := by
  induction kvs with
  | nil => exact fun p hp => ⟨p, rfl, hp, by simp [alistFind], by
      intro k0 _
      simp [alistFind]⟩
  | cons kv rest ih =>
    intro p hp
    obtain ⟨k, vv⟩ := kv
    by_cases hk : k ∈ p.tag.magic
    · -- magic key: routed into the FileHash
      have hstep := packageSetItem_magic p k vv hk
      set p1 : PackageL := { p with hashes := p.hashes.slotSet k (PyVal.pstr vv) }
      obtain ⟨q, hq, hqm, hqs, hqd⟩ := ih p1 hp
      refine ⟨q, ?_, hqm, ?_, ?_⟩
      · simp only [setItemsFold, hstep, hq]
      · rw [hqs, List.reverse_cons, alistFind_append]
        have hp1sha := slotSet_magic_sha256 p.hashes k (PyVal.pstr vv) (hp ▸ hk)
        cases hrev : alistFind rest.reverse (pys ("SHA256")) with
        | some w => rfl
        | none =>
          by_cases hks : k = pys ("SHA256")
          · subst hks
            simp [alistFind, hp1sha]
          · have : (k == pys ("SHA256")) = false := by
              rw [beq_eq_false_iff_ne]; exact hks
            simp [alistFind, this, hp1sha, hks]
      · intro k0 hk0
        rw [hqd k0 hk0, List.reverse_cons, alistFind_append]
        have hkk0 : (k == k0) = false := by
          rw [beq_eq_false_iff_ne]
          intro hh
          exact hk0 (hh ▸ (hp ▸ hk))
        cases hrev : alistFind rest.reverse k0 with
        | some w => rfl
        | none => simp [alistFind, hkk0]
    · -- plain key: routed into the TagBlock dict
      have hstep := packageSetItem_plain p k vv hk
      set p1 : PackageL := { p with tag := { p.tag with
        order_first :=
          if k ∉ p.tag.order_first ∧ k ∉ p.tag.order_last
          then p.tag.order_first ++ [k] else p.tag.order_first,
        dict := alistSet p.tag.dict k vv } }
      obtain ⟨q, hq, hqm, hqs, hqd⟩ := ih p1 hp
      refine ⟨q, ?_, hqm, ?_, ?_⟩
      · simp only [setItemsFold, hstep, hq]
      · rw [hqs, List.reverse_cons, alistFind_append]
        have hknotsha : (k == pys ("SHA256")) = false := by
          rw [beq_eq_false_iff_ne]
          intro hh
          exact hk (by rw [hh, hp]; decide)
        cases hrev : alistFind rest.reverse (pys ("SHA256")) with
        | some w => rfl
        | none => simp [alistFind, hknotsha]
      · intro k0 hk0
        rw [hqd k0 hk0, List.reverse_cons, alistFind_append]
        cases hrev : alistFind rest.reverse k0 with
        | some w => rfl
        | none =>
          show alistFind p1.tag.dict k0 =
            (match alistFind [(k, vv)] k0 with
              | some v => some v
              | none => alistFind p.tag.dict k0)
          have : p1.tag.dict = alistSet p.tag.dict k vv := rfl
          rw [this, alistFind_alistSet]
          by_cases hkk : k0 == k
          · have hkk2 : (k == k0) = true := by
              rw [beq_iff_eq] at hkk ⊢
              exact hkk.symm
            simp [alistFind, hkk, hkk2]
          · have hkk2 : (k == k0) = false := by
              rw [beq_eq_false_iff_ne]
              intro hh
              rw [Bool.not_eq_true, beq_eq_false_iff_ne] at hkk
              exact hkk hh.symm
            simp [alistFind, hkk, hkk2]

theorem slotGet_sha256 (h : FileHashL) :
    h.slotGet (pys ("SHA256")) = Except.ok h.sha256 := by
  obtain ⟨f, s, m, a, b, c⟩ := h
  rfl

theorem packageGetItem_sha256 (p : PackageL) (hm : p.tag.magic = packageMagic) :
    p.getItem (pys ("SHA256")) = Except.ok p.hashes.sha256 := by
  rw [PackageL.getItem, hm, if_pos (by decide : pys ("SHA256") ∈ packageMagic),
    slotGet_sha256]

theorem packageGetItem_plain (p : PackageL) (k : PyStr)
    (hm : p.tag.magic = packageMagic) (hk : k ∉ packageMagic) :
    p.getItem k = (p.tag.getItem k).map PyVal.pstr := by
  rw [PackageL.getItem, hm, if_neg hk]

/-- `Package.__init__` on a plain stanza (`magic = []`): succeeds, and
the fields `_add_package` reads afterwards reflect the stanza (its last
occurrence of each key). -/
theorem mkPackage_spec (stanza : TagBlockL) (hmag : stanza.magic = []) :
    ∃ q, mkPackage stanza = Except.ok q ∧ q.tag.magic = packageMagic ∧
      q.hashes.sha256 =
        (match alistFind stanza.dict.reverse (pys ("SHA256")) with
          | some v => PyVal.pstr v
          | none => PyVal.pnone) ∧
      (∀ k0, k0 ∉ packageMagic →
        alistFind q.tag.dict k0 =
          (match alistFind stanza.dict.reverse k0 with
            | some v => some v
            | none => none)) := by
  obtain ⟨q, hq, hqm, hqs, hqd⟩ := setItemsFold_spec stanza.dict
    { tag := { magic := packageMagic }, hashes := { filename := PyVal.pstr [] } }
    rfl
  refine ⟨q, ?_, hqm, by simpa using hqs, ?_⟩
  · rw [mkPackage, hq, hmag]
    rfl
  · intro k0 hk0
    have := hqd k0 hk0
    simpa [alistFind] using this

/-- Counterexample for C4: the claim says a stanza *missing* `SHA256`
raises `MissingControlFieldException`; in fact `package['SHA256']` on a
plain `TagBlock` raises `KeyError` first, so an empty stanza never
reaches the validation. -/
theorem C4_missing_field_keyerror_counterexample :
    addPackage {} {} (pys ("src")) = Except.error PyErr.keyError ∧
    ∀ pv fv, addPackage {} {} (pys ("src")) ≠
      Except.error (PyErr.missingControlField pv fv) := by
  refine ⟨rfl, ?_⟩
  intro pv fv h
  rw [(rfl :
    addPackage {} {} (pys ("src")) = Except.error PyErr.keyError)] at h
  injection h with h3
  exact PyErr.noConfusion h3

/-- Amended C4: `_add_package` on a plain stanza in which the four
fields `SHA256`, `Filename`, `Package`, `Version` are all *present*
(an absent field raises `KeyError` instead — see the counterexample):
an empty value raises `MissingControlFieldException(source, field)` in
source order; otherwise a SHA256 already pooled returns the pooled
package with the state untouched (idempotence); otherwise a new Package
is inserted at `pool[SHA256]` and registered under
`by_name[Package][Version]`. -/
theorem C4_add_package_amended (st : RepoClassState) (stanza : TagBlockL)
    (src sha fnv pn vn : PyStr)
    (hmag : stanza.magic = [])
    (hnd : (stanza.dict.map (fun p => p.1)).Nodup)
    (hsha : alistFind stanza.dict (pys ("SHA256")) = some sha)
    (hfn : alistFind stanza.dict (pys ("Filename")) = some fnv)
    (hpn : alistFind stanza.dict (pys ("Package")) = some pn)
    (hvn : alistFind stanza.dict (pys ("Version")) = some vn) :
    (sha = [] → addPackage st stanza src =
      Except.error (PyErr.missingControlField src (pys ("SHA256")))) ∧
    (sha ≠ [] → fnv = [] → addPackage st stanza src =
      Except.error (PyErr.missingControlField src (pys ("Filename")))) ∧
    (sha ≠ [] → fnv ≠ [] → pn = [] → addPackage st stanza src =
      Except.error (PyErr.missingControlField src (pys ("Package")))) ∧
    (sha ≠ [] → fnv ≠ [] → pn ≠ [] → vn = [] → addPackage st stanza src =
      Except.error (PyErr.missingControlField src (pys ("Version")))) ∧
    (sha ≠ [] → fnv ≠ [] → pn ≠ [] → vn ≠ [] →
      (∀ pkg0, alistFind st.pool (PyVal.pstr sha) = some pkg0 →
        addPackage st stanza src = Except.ok (st, pkg0)) ∧
      (alistFind st.pool (PyVal.pstr sha) = none →
        ∃ pkg st2, addPackage st stanza src = Except.ok (st2, pkg) ∧
          st2.pool = alistSet st.pool (PyVal.pstr sha) pkg ∧
          alistFind st2.pool (PyVal.pstr sha) = some pkg ∧
          ∃ inner, alistFind st2.poolByPackage (PyVal.pstr pn) = some inner ∧
            alistFind inner (PyVal.pstr vn) = some (PyVal.pstr sha))) := by
  have hCF1 : checkField stanza src (pys ("SHA256")) =
      (if sha = [] then
        Except.error (PyErr.missingControlField src (pys ("SHA256")))
       else Except.ok sha) := by
    rw [checkField, TagBlockL.getItem, hsha]
  have hCF2 : checkField stanza src (pys ("Filename")) =
      (if fnv = [] then
        Except.error (PyErr.missingControlField src (pys ("Filename")))
       else Except.ok fnv) := by
    rw [checkField, TagBlockL.getItem, hfn]
  have hCF3 : checkField stanza src (pys ("Package")) =
      (if pn = [] then
        Except.error (PyErr.missingControlField src (pys ("Package")))
       else Except.ok pn) := by
    rw [checkField, TagBlockL.getItem, hpn]
  have hCF4 : checkField stanza src (pys ("Version")) =
      (if vn = [] then
        Except.error (PyErr.missingControlField src (pys ("Version")))
       else Except.ok vn) := by
    rw [checkField, TagBlockL.getItem, hvn]
  refine ⟨?_, ?_, ?_, ?_, ?_⟩
  · intro h1
    simp only [addPackage, hCF1, if_pos h1]
  · intro h1 h2
    simp only [addPackage, hCF1, if_neg h1, hCF2, if_pos h2]
  · intro h1 h2 h3
    simp only [addPackage, hCF1, if_neg h1, hCF2, if_neg h2, hCF3, if_pos h3]
  · intro h1 h2 h3 h4
    simp only [addPackage, hCF1, if_neg h1, hCF2, if_neg h2, hCF3, if_neg h3,
      hCF4, if_pos h4]
  · intro h1 h2 h3 h4
    constructor
    · intro pkg0 hpool
      simp only [addPackage, hCF1, if_neg h1, hCF2, if_neg h2, hCF3, if_neg h3,
        hCF4, if_neg h4, hpool]
    · intro hpool
      obtain ⟨q, hq, hqm, hqs, hqd⟩ := mkPackage_spec stanza hmag
      have hrev := alistFind_reverse_of_nodup stanza.dict
      have hsha256 : q.hashes.sha256 = PyVal.pstr sha := by
        rw [hqs, hrev _ hnd, hsha]
      have hg1 : q.getItem (pys ("SHA256")) = Except.ok (PyVal.pstr sha) := by
        rw [packageGetItem_sha256 q hqm, hsha256]
      have hg2 : q.getItem (pys ("Package")) = Except.ok (PyVal.pstr pn) := by
        rw [packageGetItem_plain q _ hqm (by decide), TagBlockL.getItem,
          hqd _ (by decide), hrev _ hnd, hpn]
        rfl
      have hg3 : q.getItem (pys ("Version")) = Except.ok (PyVal.pstr vn) := by
        rw [packageGetItem_plain q _ hqm (by decide), TagBlockL.getItem,
          hqd _ (by decide), hrev _ hnd, hvn]
        rfl
      have haddEval : addPackage st stanza src = registerPackage st stanza := by
        simp only [addPackage, hCF1, if_neg h1, hCF2, if_neg h2, hCF3,
          if_neg h3, hCF4, if_neg h4, hpool]
      have hreg : addPackage st stanza src = Except.ok
          ({ st with
            pool := alistSet st.pool (PyVal.pstr sha) q,
            poolByPackage := alistSet
              (if alistHas st.poolByPackage (PyVal.pstr pn) then st.poolByPackage
               else alistSet st.poolByPackage (PyVal.pstr pn) [])
              (PyVal.pstr pn)
              (alistSet
                ((alistFind
                  (if alistHas st.poolByPackage (PyVal.pstr pn) then st.poolByPackage
                   else alistSet st.poolByPackage (PyVal.pstr pn) [])
                  (PyVal.pstr pn)).getD [])
                (PyVal.pstr vn) (PyVal.pstr sha)) }, q) := by
        rw [haddEval]
        simp only [registerPackage, hq, hg1, hg2, hg3]
      refine ⟨q, _, hreg, rfl, ?_, ?_⟩
      · show alistFind (alistSet st.pool (PyVal.pstr sha) q) (PyVal.pstr sha) =
          some q
        rw [alistFind_alistSet]
        simp
      · refine ⟨alistSet
          ((alistFind
            (if alistHas st.poolByPackage (PyVal.pstr pn) then st.poolByPackage
             else alistSet st.poolByPackage (PyVal.pstr pn) [])
            (PyVal.pstr pn)).getD [])
          (PyVal.pstr vn) (PyVal.pstr sha), ?_, ?_⟩
        · show alistFind (alistSet
            (if alistHas st.poolByPackage (PyVal.pstr pn) then st.poolByPackage
             else alistSet st.poolByPackage (PyVal.pstr pn) [])
            (PyVal.pstr pn) _) (PyVal.pstr pn) = _
          rw [alistFind_alistSet]
          simp
        · rw [alistFind_alistSet]
          simp

/-- Witness for the amended C4: a stanza with an empty (but present)
`SHA256` raises `MissingControlFieldException('src', 'SHA256')`, and a
stanza whose SHA256 is already pooled returns the pooled package with
the state untouched. -/
theorem C4_add_package_amended_witness :
    addPackage {}
        { dict := [(pys ("SHA256"), []), (pys ("Filename"), pys ("f")),
            (pys ("Package"), pys ("x")), (pys ("Version"), pys ("1"))] }
        (pys ("src")) =
      Except.error (PyErr.missingControlField (pys ("src")) (pys ("SHA256"))) ∧
    addPackage
        { pool := [(PyVal.pstr (pys ("s")),
            { tag := {}, hashes := { filename := PyVal.pstr [] } })] }
        { dict := [(pys ("SHA256"), pys ("s")), (pys ("Filename"), pys ("f")),
            (pys ("Package"), pys ("x")), (pys ("Version"), pys ("1"))] }
        (pys ("src")) =
      Except.ok
        ({ pool := [(PyVal.pstr (pys ("s")),
            { tag := {}, hashes := { filename := PyVal.pstr [] } })] },
          { tag := {}, hashes := { filename := PyVal.pstr [] } }) := by
  constructor
  · exact (C4_add_package_amended {}
      { dict := [(pys ("SHA256"), []), (pys ("Filename"), pys ("f")),
          (pys ("Package"), pys ("x")), (pys ("Version"), pys ("1"))] }
      (pys ("src")) [] (pys ("f")) (pys ("x")) (pys ("1")) rfl (by decide)
      (by decide) (by decide) (by decide) (by decide)).1 rfl
  · exact ((C4_add_package_amended
      { pool := [(PyVal.pstr (pys ("s")),
          { tag := {}, hashes := { filename := PyVal.pstr [] } })] }
      { dict := [(pys ("SHA256"), pys ("s")), (pys ("Filename"), pys ("f")),
          (pys ("Package"), pys ("x")), (pys ("Version"), pys ("1"))] }
      (pys ("src")) (pys ("s")) (pys ("f")) (pys ("x")) (pys ("1")) rfl
      (by decide) (by decide) (by decide) (by decide)
      (by decide)).2.2.2.2 (by decide) (by decide) (by decide) (by decide)).1
      { tag := {}, hashes := { filename := PyVal.pstr [] } } (by decide)

/-! ### String lemmas for the tag-file codec -/

theorem contains_append_eq {α : Type} [BEq α] (l1 l2 : List α) (c : α) :
    (l1 ++ l2).contains c = (l1.contains c || l2.contains c) := by
  induction l1 with
  | nil => simp
  | cons a as ih => simp [List.contains_cons, ih, Bool.or_assoc]

theorem pyRstrip_append_last (x : PyStr) (c : Char) (hc : pyIsSpace c = false) :
    pyRstrip (x ++ [c]) = x ++ [c] := by
  rw [pyRstrip, List.reverse_append]
  simp [List.dropWhile, hc]

theorem validLine_head (l : PyStr) (h : validLine l = true) :
    ∃ c l2, l = c :: l2 ∧ pyIsSpace c = false := by
  cases l with
  | nil => simp [validLine] at h
  | cons c l2 =>
    refine ⟨c, l2, rfl, ?_⟩
    rw [validLine] at h
    cases hrev : (c :: l2).reverse.head? with
    | none =>
      rw [List.head?_eq_none_iff] at hrev
      exact absurd hrev (by simp)
    | some d =>
      rw [List.head?_cons, hrev] at h
      simp only [Bool.and_eq_true, Bool.not_eq_true'] at h
      exact h.1

theorem validLine_last (l : PyStr) (h : validLine l = true) :
    ∃ l1 d, l = l1 ++ [d] ∧ pyIsSpace d = false := by
  rw [validLine] at h
  cases hhd : l.head? with
  | none => rw [hhd] at h; simp at h
  | some c =>
    cases hrev : l.reverse.head? with
    | none => rw [hhd, hrev] at h; simp at h
    | some d =>
      rw [hhd, hrev] at h
      simp only [Bool.and_eq_true, Bool.not_eq_true'] at h
      cases hr : l.reverse with
      | nil => rw [hr] at hrev; simp at hrev
      | cons d2 t =>
        rw [hr, List.head?_cons, Option.some.injEq] at hrev
        subst hrev
        refine ⟨t.reverse, d2, ?_, h.2⟩
        have h3 : l.reverse.reverse = (d2 :: t).reverse := by rw [hr]
        rw [List.reverse_reverse] at h3
        rw [h3, List.reverse_cons]

theorem pyRstrip_validLine (l : PyStr) (h : validLine l = true) :
    pyRstrip l = l := by
  obtain ⟨l1, d, rfl, hd⟩ := validLine_last l h
  exact pyRstrip_append_last l1 d hd

theorem pyLstrip_validLine (l : PyStr) (h : validLine l = true) :
    pyLstrip l = l := by
  obtain ⟨c, l2, rfl, hc⟩ := validLine_head l h
  simp [pyLstrip, List.dropWhile, hc]

theorem pyStrip_validLine (l : PyStr) (h : validLine l = true) :
    pyStrip l = l := by
  rw [pyStrip, pyRstrip_validLine l h, pyLstrip_validLine l h]

theorem pyRstrip_space_validLine (l : PyStr) (h : validLine l = true) :
    pyRstrip (' ' :: l) = ' ' :: l := by
  obtain ⟨l1, d, hL, hd⟩ := validLine_last l h
  have h2 : (' ' :: l) = (' ' :: l1) ++ [d] := by rw [hL]; rfl
  rw [h2, pyRstrip_append_last _ _ hd]

theorem pyStrip_space_validLine (l : PyStr) (h : validLine l = true) :
    pyStrip (' ' :: l) = l := by
  rw [pyStrip, pyRstrip_space_validLine l h]
  obtain ⟨c, l2, rfl, hc⟩ := validLine_head l h
  have h1 : pyIsSpace ' ' = true := rfl
  simp [pyLstrip, List.dropWhile, hc, h1]

theorem splitColon1_append (k rest : PyStr) (hk : k.contains ':' = false) :
    splitColon1 (k ++ ':' :: rest) = some (k, rest) := by
  induction k with
  | nil => simp [splitColon1]
  | cons c k ih =>
    rw [List.contains_cons, Bool.or_eq_false_iff] at hk
    have hc : ¬ c = ':' := by
      intro hh
      rw [hh] at hk
      simpa using hk.1
    rw [List.cons_append, splitColon1, if_neg hc, ih hk.2]
    rfl

theorem splitNl_ne_nil (v : PyStr) : splitNl v ≠ [] := by
  cases v with
  | nil => simp [splitNl]
  | cons c cs =>
    rw [splitNl]
    by_cases hc : c = '\n'
    · simp [hc]
    · cases h : splitNl cs <;> simp [hc, h]

theorem splitNl_nlfree (l : PyStr) (h : l.contains '\n' = false) :
    splitNl l = [l] := by
  induction l with
  | nil => rfl
  | cons c cs ih =>
    rw [List.contains_cons, Bool.or_eq_false_iff] at h
    have hc : ¬ c = '\n' := by
      intro hh
      rw [hh] at h
      simpa using h.1
    rw [splitNl, if_neg hc, ih h.2]

theorem splitNl_append (l rest : PyStr) (h : l.contains '\n' = false) :
    splitNl (l ++ '\n' :: rest) = l :: splitNl rest := by
  induction l with
  | nil => simp [splitNl]
  | cons c cs ih =>
    rw [List.contains_cons, Bool.or_eq_false_iff] at h
    have hc : ¬ c = '\n' := by
      intro hh
      rw [hh] at h
      simpa using h.1
    rw [List.cons_append, splitNl, if_neg hc, ih h.2]

theorem pyJoin_single (sep x : PyStr) : pyJoin sep [x] = x := rfl

theorem pyJoin_cons2 (sep x y : PyStr) (ys : List PyStr) :
    pyJoin sep (x :: y :: ys) = x ++ sep ++ pyJoin sep (y :: ys) := rfl

theorem pyJoin_splitNl (v : PyStr) : pyJoin ['\n'] (splitNl v) = v := by
  induction v with
  | nil => rfl
  | cons c cs ih =>
    rw [splitNl]
    by_cases hc : c = '\n'
    · rw [if_pos hc]
      cases h : splitNl cs with
      | nil => exact absurd h (splitNl_ne_nil cs)
      | cons l ls =>
        rw [h] at ih
        rw [pyJoin_cons2, ih]
        simp [hc]
    · rw [if_neg hc]
      cases h : splitNl cs with
      | nil => exact absurd h (splitNl_ne_nil cs)
      | cons l ls =>
        rw [h] at ih
        cases ls with
        | nil =>
          rw [pyJoin_single]
          rw [pyJoin_single] at ih
          rw [ih]
        | cons l2 ls2 =>
          rw [pyJoin_cons2] at ih
          rw [pyJoin_cons2, ← ih]
          simp

theorem splitNl_pyJoin (ls : List PyStr) (hne : ls ≠ [])
    (h : ∀ l ∈ ls, l.contains '\n' = false) :
    splitNl (pyJoin ['\n'] ls) = ls := by
  induction ls with
  | nil => exact absurd rfl hne
  | cons l ls ih =>
    cases ls with
    | nil =>
      rw [pyJoin_single, splitNl_nlfree l (h l (by simp))]
    | cons l2 ls2 =>
      rw [pyJoin_cons2]
      have hstep : l ++ ['\n'] ++ pyJoin ['\n'] (l2 :: ls2) =
          l ++ '\n' :: pyJoin ['\n'] (l2 :: ls2) := by simp
      rw [hstep, splitNl_append l _ (h l (by simp)),
        ih (by simp) (fun x hx => h x (by simp [hx]))]

/-! ### C9: empty header values -/

/-- Counterexample for C9: a header line `B:` with an empty value does
*not* produce a present field with an empty value: `read_tag_file` only
remembers the key for continuations (`if value: tags[key] = value`
skips the store), so the field is absent from the parsed block. -/
theorem C9_empty_value_parse_counterexample :
    readTagFile (pys ("A: x\nB:")) =
      Except.ok
        [{ order_first := [pys ("A")], dict := [(pys ("A"), pys ("x"))] }] ∧
    TagBlockL.containsKey
      { order_first := [pys ("A")], dict := [(pys ("A"), pys ("x"))] }
      (pys ("B")) = false := by
  exact ⟨rfl, rfl⟩

theorem mem_splitNl_nlfree (v : PyStr) :
    ∀ l ∈ splitNl v, l.contains '\n' = false := by
  induction v with
  | nil =>
    intro l hl
    simp only [splitNl, List.mem_singleton] at hl
    subst hl
    rfl
  | cons c cs ih =>
    intro l hl
    rw [splitNl] at hl
    by_cases hc : c = '\n'
    · rw [if_pos hc] at hl
      rcases List.mem_cons.mp hl with rfl | h2
      · rfl
      · exact ih l h2
    · rw [if_neg hc] at hl
      cases h : splitNl cs with
      | nil => exact absurd h (splitNl_ne_nil cs)
      | cons x xs =>
        rw [h] at hl
        rcases List.mem_cons.mp hl with rfl | h2
        · rw [List.contains_cons]
          have hcb : (('\n' : Char) == c) = false := by
            rw [beq_eq_false_iff_ne]
            exact fun hh => hc hh.symm
          rw [hcb]
          have hx : x ∈ splitNl cs := by rw [h]; exact List.mem_cons_self x xs
          rw [ih x hx]
          rfl
        · exact ih l (by rw [h]; exact List.mem_cons_of_mem x h2)

/-- Amended C9: a header line with an empty value only sets the
current key: with no continuation the field stays absent (an empty
block yields nothing); a following continuation line stores its stripped
text as the first value.  Serialization, in turn, distinguishes
present-but-empty from absent: a field present with the empty string is
emitted as `"k: "`, while a key that is merely listed in `order_first`
but absent from the dictionary is omitted entirely. -/
theorem C9_empty_value_amended (c : Char) (k2 : PyStr)
    (hk : validKey (c :: k2) = true) :
    readTagFile ((c :: k2) ++ [':']) = Except.ok [] ∧
    (∀ l, validLine l = true → l.contains '\n' = false →
      readTagFile ((c :: k2) ++ ':' :: '\n' :: ' ' :: l) =
        Except.ok [{ order_first := [c :: k2], dict := [(c :: k2, l)] }]) ∧
    TagBlockL.tagStr { order_first := [c :: k2], dict := [(c :: k2, [])] } =
      Except.ok ((c :: k2) ++ ':' :: ' ' :: []) ∧
    TagBlockL.tagStr { order_first := [c :: k2], dict := [] } =
      Except.ok [] := by
  rw [validKey] at hk
  simp only [Bool.and_eq_true, Bool.not_eq_true', decide_eq_true_eq,
    ne_eq] at hk
  obtain ⟨⟨hcsp, hcol⟩, hnl⟩ := hk
  have hline : pyRstrip ((c :: k2) ++ [':']) = (c :: k2) ++ [':'] :=
    pyRstrip_append_last (c :: k2) ':' rfl
  have hsplit : splitColon1 ((c :: k2) ++ ':' :: ([] : PyStr)) =
      some (c :: k2, []) :=
    splitColon1_append (c :: k2) [] hcol
  have hstep1 : readTagStep ⟨{}, none, []⟩ ((c :: k2) ++ [':']) =
      Except.ok ⟨{}, some (c :: k2), []⟩ := by
    rw [readTagStep]
    simp only [hline]
    rw [if_neg (by simp), if_neg (by simpa using hcsp)]
    have h0 : (c :: k2) ++ [':'] = (c :: k2) ++ ':' :: ([] : PyStr) := rfl
    rw [h0, hsplit]
    rfl
  have hcontainsnl : ((c :: k2) ++ [':']).contains '\n' = false := by
    rw [contains_append_eq, hnl]
    rfl
  refine ⟨?_, ?_, ?_, ?_⟩
  · rw [readTagFile, splitNl_nlfree _ hcontainsnl]
    simp only [runLines, hstep1]
    rfl
  · intro l hl hnll
    have hsplitall : splitNl ((c :: k2) ++ ':' :: '\n' :: ' ' :: l) =
        [(c :: k2) ++ [':'], ' ' :: l] := by
      have h1 : (c :: k2) ++ ':' :: '\n' :: ' ' :: l =
          ((c :: k2) ++ [':']) ++ '\n' :: (' ' :: l) := by simp
      rw [h1, splitNl_append _ _ hcontainsnl,
        splitNl_nlfree (' ' :: l) (by rw [List.contains_cons, hnll]; rfl)]
    have hstep2 : readTagStep ⟨{}, some (c :: k2), []⟩ (' ' :: l) =
        Except.ok ⟨{ order_first := [c :: k2], dict := [(c :: k2, l)] },
          some (c :: k2), []⟩ := by
      rw [readTagStep]
      simp only [pyRstrip_space_validLine l hl, pyStrip_space_validLine l hl]
      rfl
    rw [readTagFile, hsplitall]
    simp only [runLines, hstep1, hstep2]
    rfl
  · simp [TagBlockL.tagStr, strPass, TagBlockL.containsKey, alistHas, alistFind,
      TagBlockL.writeProp, formatProp, pyFilterTruthy, pyJoin, List.filter,
      List.filterMap]
  · simp [TagBlockL.tagStr, strPass, TagBlockL.containsKey, alistHas, alistFind,
      TagBlockL.writeProp, pyFilterTruthy, pyJoin]

/-- Witness for the amended C9 at the concrete key `Key` and
continuation text `text`. -/
theorem C9_empty_value_amended_witness :
    readTagFile (pys ("Key:")) = Except.ok [] ∧
    readTagFile (pys ("Key:\n text")) =
      Except.ok [{ order_first := [pys ("Key")],
                   dict := [(pys ("Key"), pys ("text"))] }] ∧
    TagBlockL.tagStr { order_first := [pys ("Key")],
                       dict := [(pys ("Key"), [])] } =
      Except.ok (pys ("Key: ")) ∧
    TagBlockL.tagStr { order_first := [pys ("Key")], dict := [] } =
      Except.ok [] := by
  have h := C9_empty_value_amended 'K' (pys ("ey")) (by decide)
  exact ⟨h.1, h.2.1 (pys ("text")) (by decide) (by decide), h.2.2.1, h.2.2.2⟩

theorem sread_at (d pre mid post : List Nat) (pos n : Nat)
    (hd : d = pre ++ (mid ++ post)) (hpos : pos = pre.length)
    (hn : n = mid.length) :
    sread { data := d, pos := pos } n = (mid, { data := d, pos := pos + n }) := by
  subst hd hpos hn
  rw [sread]
  simp [List.drop_left, List.take_left]

theorem readFileHeader_at (d pre hb post : List Nat) (pos : Nat) (r : ARRecord)
    (hd : d = pre ++ (hb ++ post)) (hpos : pos = pre.length)
    (hlen : hb.length = 60) (hmk : mkARRecord hb = Except.ok r) :
    readFileHeader { data := d, pos := pos } =
      Except.ok (some r, { data := d, pos := pos + 60 }) := by
  rw [readFileHeader, sread_at d pre hb post pos 60 hd hpos hlen.symm]
  simp [hlen, hmk, Except.map]

theorem readFileRec_even_at (d pre body post : List Nat) (pos : Nat)
    (r : ARRecord) (hd : d = pre ++ (body ++ post)) (hpos : pos = pre.length)
    (hsz : r.size = (body.length : Int)) (heven : body.length % 2 = 0) :
    readFileRec { data := d, pos := pos } r =
      (body, { data := d, pos := pos + body.length }) := by
  rw [readFileRec, hsz, sreadI, if_neg (by omega : ¬ ((body.length : Int) < 0))]
  have ht : ((body.length : Int)).toNat = body.length := by omega
  rw [ht, sread_at d pre body post pos body.length hd hpos rfl]
  have h2 : ¬ ((body.length : Int) % 2 ≠ 0) := by omega
  simp [h2]

theorem readFileRec_fst_at (d pre body post : List Nat) (pos : Nat)
    (r : ARRecord) (hd : d = pre ++ (body ++ post)) (hpos : pos = pre.length)
    (hsz : r.size = (body.length : Int)) :
    ∃ s2, readFileRec { data := d, pos := pos } r = (body, s2) := by
  rw [readFileRec, hsz, sreadI, if_neg (by omega : ¬ ((body.length : Int) < 0))]
  have ht : ((body.length : Int)).toNat = body.length := by omega
  rw [ht, sread_at d pre body post pos body.length hd hpos rfl]
  by_cases hodd : body.length % 2 = 1
  · have hne : ((body.length : Int)) % 2 ≠ 0 := by omega
    refine ⟨(sread { data := d, pos := pos + body.length } 1).2, ?_⟩
    simp only [hne, ite_true]
    rw [if_pos hne]
  · have heq : ¬ (((body.length : Int)) % 2 ≠ 0) := by omega
    refine ⟨{ data := d, pos := pos + body.length }, ?_⟩
    simp only [sread]
    rw [if_neg heq]

theorem readFileRec_pos_of (s : ByteStream) (r : ARRecord) (n : Nat)
    (hsz : r.size = (n : Int))
    (hfit : s.pos + n + n % 2 ≤ s.data.length) :
    (readFileRec s r).2.pos = s.pos + n + n % 2 := by
  rw [readFileRec, hsz, sreadI, if_neg (by omega : ¬ ((n : Int) < 0))]
  have ht : ((n : Int)).toNat = n := by omega
  rw [ht]
  simp only [sread]
  by_cases hodd : n % 2 = 1
  · have hne : ((n : Int)) % 2 ≠ 0 := by omega
    rw [if_pos hne]
    simp only [List.length_take, List.length_drop]
    omega
  · have heq : ¬ (((n : Int)) % 2 ≠ 0) := by omega
    rw [if_neg heq]
    simp only [List.length_take, List.length_drop]
    omega

theorem extract_ok_of
    (tar : List Nat → Except PyErr (List (PyStr × List Nat)))
    (h1bytes h2bytes body2 rest deb : List Nat)
    (rec1 rec2 : ARRecord) (members : List (PyStr × List Nat))
    (mem : PyStr × List Nat) (b : TagBlockL) (bs : List TagBlockL)
    (hdeb : deb = arMagic ++ h1bytes ++ [50, 46, 48, 10] ++ h2bytes ++ body2 ++ rest)
    (hlen1 : h1bytes.length = 60)
    (hdr1 : mkARRecord h1bytes = Except.ok rec1)
    (hname1 : rec1.name = strBytes (pys ("debian-binary")))
    (hsize1 : rec1.size = (4 : Int))
    (hlen2 : h2bytes.length = 60)
    (hdr2 : mkARRecord h2bytes = Except.ok rec2)
    (hname2 : (strBytes (pys ("control.tar"))).isPrefixOf rec2.name = true)
    (hsize2 : rec2.size = (body2.length : Int))
    (htar : tar body2 = Except.ok members)
    (hfind : members.find?
      (fun m2 => m2.1 = pys ("./control") || m2.1 = pys ("control")) = some mem)
    (hparse : readTagFile (bytesToStr mem.2) = Except.ok (b :: bs)) :
    extractControlFile tar deb = Except.ok b := by
  have hmg : sread { data := deb, pos := 0 } 8 =
      (arMagic, { data := deb, pos := 8 }) := by
    have := sread_at deb [] arMagic
      (h1bytes ++ [50, 46, 48, 10] ++ h2bytes ++ body2 ++ rest) 0 8
      (by rw [hdeb]; simp [List.append_assoc]) rfl rfl
    simpa using this
  have hh1 : readFileHeader { data := deb, pos := 8 } =
      Except.ok (some rec1, { data := deb, pos := 68 }) := by
    have := readFileHeader_at deb arMagic h1bytes
      ([50, 46, 48, 10] ++ h2bytes ++ body2 ++ rest) 8 rec1
      (by rw [hdeb]; simp [List.append_assoc]) rfl hlen1 hdr1
    simpa using this
  have hr1 : readFileRec { data := deb, pos := 68 } rec1 =
      ([50, 46, 48, 10], { data := deb, pos := 72 }) := by
    have := readFileRec_even_at deb (arMagic ++ h1bytes) [50, 46, 48, 10]
      (h2bytes ++ body2 ++ rest) 68 rec1
      (by rw [hdeb]; simp [List.append_assoc])
      (by simp [arMagic, List.length_append, hlen1])
      (by rw [hsize1]; decide) (by decide)
    simpa using this
  have hh2 : readFileHeader { data := deb, pos := 72 } =
      Except.ok (some rec2, { data := deb, pos := 132 }) := by
    have := readFileHeader_at deb (arMagic ++ h1bytes ++ [50, 46, 48, 10])
      h2bytes (body2 ++ rest) 72 rec2
      (by rw [hdeb]; simp [List.append_assoc])
      (by simp [arMagic, List.length_append, hlen1]) hlen2 hdr2
    simpa using this
  have hr2 : ∃ s5, readFileRec { data := deb, pos := 132 } rec2 = (body2, s5) := by
    exact readFileRec_fst_at deb
      (arMagic ++ h1bytes ++ [50, 46, 48, 10] ++ h2bytes) body2 rest 132 rec2
      (by rw [hdeb]; simp [List.append_assoc])
      (by simp [arMagic, List.length_append, hlen1, hlen2]) hsize2
  obtain ⟨s5, hr2⟩ := hr2
  rw [extractControlFile]
  simp only [hmg, hh1, hr1, hh2, hr2, htar, hfind, hparse, hname1]
  rw [if_neg (fun hc => hc rfl)]
  rw [if_neg (fun hc => hc rfl)]
  rw [if_neg (fun hc => hc rfl)]
  rw [if_neg (fun hc => hc hname2)]

theorem extract_magic_bad
    (tar : List Nat → Except PyErr (List (PyStr × List Nat)))
    (deb : List Nat) (hm : deb.take 8 ≠ arMagic) :
    extractControlFile tar deb =
      Except.error (PyErr.valueError (pys ("Stream is not a valid debian archive"))) := by
  rw [extractControlFile]
  simp only [sread, List.drop_zero]
  rw [if_pos hm]

theorem extract_name1_bad
    (tar : List Nat → Except PyErr (List (PyStr × List Nat)))
    (h1b tail : List Nat) (r1 : ARRecord)
    (hlen : h1b.length = 60) (hmk : mkARRecord h1b = Except.ok r1)
    (hname : r1.name ≠ strBytes (pys ("debian-binary"))) :
    extractControlFile tar (arMagic ++ h1b ++ tail) =
      Except.error
        (PyErr.valueError (pys ("Archive does not start with debian-binary file"))) := by
  have hmg : sread { data := arMagic ++ h1b ++ tail, pos := 0 } 8 =
      (arMagic, { data := arMagic ++ h1b ++ tail, pos := 8 }) := by
    have := sread_at (arMagic ++ h1b ++ tail) [] arMagic (h1b ++ tail) 0 8
      (by simp [List.append_assoc]) rfl rfl
    simpa using this
  have hh1 : readFileHeader { data := arMagic ++ h1b ++ tail, pos := 8 } =
      Except.ok (some r1, { data := arMagic ++ h1b ++ tail, pos := 68 }) := by
    have := readFileHeader_at (arMagic ++ h1b ++ tail) arMagic h1b tail 8 r1
      (by simp [List.append_assoc]) rfl hlen hmk
    simpa using this
  rw [extractControlFile]
  simp only [hmg, hh1]
  rw [if_neg (fun hc => hc rfl)]
  rw [if_pos hname]

theorem extract_version_bad
    (tar : List Nat → Except PyErr (List (PyStr × List Nat)))
    (h1b body4 tail : List Nat) (r1 : ARRecord)
    (hlen : h1b.length = 60) (hmk : mkARRecord h1b = Except.ok r1)
    (hname : r1.name = strBytes (pys ("debian-binary")))
    (hsz : r1.size = (body4.length : Int)) (heven : body4.length % 2 = 0)
    (hbad : body4 ≠ [50, 46, 48, 10]) :
    extractControlFile tar (arMagic ++ h1b ++ body4 ++ tail) =
      Except.error
        (PyErr.valueError (pys ("Archive does not have debian-binary version 2.0"))) := by
  have hmg : sread { data := arMagic ++ h1b ++ body4 ++ tail, pos := 0 } 8 =
      (arMagic, { data := arMagic ++ h1b ++ body4 ++ tail, pos := 8 }) := by
    have := sread_at (arMagic ++ h1b ++ body4 ++ tail) [] arMagic
      (h1b ++ body4 ++ tail) 0 8 (by simp [List.append_assoc]) rfl rfl
    simpa using this
  have hh1 : readFileHeader { data := arMagic ++ h1b ++ body4 ++ tail, pos := 8 } =
      Except.ok (some r1, { data := arMagic ++ h1b ++ body4 ++ tail, pos := 68 }) := by
    have := readFileHeader_at (arMagic ++ h1b ++ body4 ++ tail) arMagic h1b
      (body4 ++ tail) 8 r1 (by simp [List.append_assoc]) rfl hlen hmk
    simpa using this
  have hr1 : readFileRec { data := arMagic ++ h1b ++ body4 ++ tail, pos := 68 } r1 =
      (body4, { data := arMagic ++ h1b ++ body4 ++ tail, pos := 68 + body4.length }) := by
    have := readFileRec_even_at (arMagic ++ h1b ++ body4 ++ tail)
      (arMagic ++ h1b) body4 tail 68 r1 (by simp [List.append_assoc])
      (by simp [arMagic, List.length_append, hlen]) hsz heven
    simpa using this
  rw [extractControlFile]
  simp only [hmg, hh1, hr1, hname]
  rw [if_neg (fun hc => hc rfl)]
  rw [if_neg (fun hc => hc rfl)]
  rw [if_pos hbad]

theorem extract_ctrl_bad
    (tar : List Nat → Except PyErr (List (PyStr × List Nat)))
    (h1b h2b tail : List Nat) (r1 r2 : ARRecord)
    (hlen1 : h1b.length = 60) (hmk1 : mkARRecord h1b = Except.ok r1)
    (hname1 : r1.name = strBytes (pys ("debian-binary")))
    (hsz1 : r1.size = (4 : Int))
    (hlen2 : h2b.length = 60) (hmk2 : mkARRecord h2b = Except.ok r2)
    (hpre : (strBytes (pys ("control.tar"))).isPrefixOf r2.name = false) :
    extractControlFile tar (arMagic ++ h1b ++ [50, 46, 48, 10] ++ h2b ++ tail) =
      Except.error
        (PyErr.valueError (pys ("Archive does not have control.tar file"))) := by
  have hmg : sread
      { data := arMagic ++ h1b ++ [50, 46, 48, 10] ++ h2b ++ tail, pos := 0 } 8 =
      (arMagic,
        { data := arMagic ++ h1b ++ [50, 46, 48, 10] ++ h2b ++ tail, pos := 8 }) := by
    have := sread_at (arMagic ++ h1b ++ [50, 46, 48, 10] ++ h2b ++ tail) [] arMagic
      (h1b ++ [50, 46, 48, 10] ++ h2b ++ tail) 0 8
      (by simp [List.append_assoc]) rfl rfl
    simpa using this
  have hh1 : readFileHeader
      { data := arMagic ++ h1b ++ [50, 46, 48, 10] ++ h2b ++ tail, pos := 8 } =
      Except.ok (some r1,
        { data := arMagic ++ h1b ++ [50, 46, 48, 10] ++ h2b ++ tail, pos := 68 }) := by
    have := readFileHeader_at (arMagic ++ h1b ++ [50, 46, 48, 10] ++ h2b ++ tail)
      arMagic h1b ([50, 46, 48, 10] ++ h2b ++ tail) 8 r1
      (by simp [List.append_assoc]) rfl hlen1 hmk1
    simpa using this
  have hr1 : readFileRec
      { data := arMagic ++ h1b ++ [50, 46, 48, 10] ++ h2b ++ tail, pos := 68 } r1 =
      ([50, 46, 48, 10],
        { data := arMagic ++ h1b ++ [50, 46, 48, 10] ++ h2b ++ tail, pos := 72 }) := by
    have := readFileRec_even_at (arMagic ++ h1b ++ [50, 46, 48, 10] ++ h2b ++ tail)
      (arMagic ++ h1b) [50, 46, 48, 10] (h2b ++ tail) 68 r1
      (by simp [List.append_assoc])
      (by simp [arMagic, List.length_append, hlen1])
      (by rw [hsz1]; decide) (by decide)
    simpa using this
  have hh2 : readFileHeader
      { data := arMagic ++ h1b ++ [50, 46, 48, 10] ++ h2b ++ tail, pos := 72 } =
      Except.ok (some r2,
        { data := arMagic ++ h1b ++ [50, 46, 48, 10] ++ h2b ++ tail, pos := 132 }) := by
    have := readFileHeader_at (arMagic ++ h1b ++ [50, 46, 48, 10] ++ h2b ++ tail)
      (arMagic ++ h1b ++ [50, 46, 48, 10]) h2b tail 72 r2
      (by simp [List.append_assoc])
      (by simp [arMagic, List.length_append, hlen1]) hlen2 hmk2
    simpa using this
  rw [extractControlFile]
  simp only [hmg, hh1, hr1, hh2, hname1]
  rw [if_neg (fun hc => hc rfl)]
  rw [if_neg (fun hc => hc rfl)]
  rw [if_neg (fun hc => hc rfl)]
  rw [if_pos (by simp [hpre])]

/-- Claim C8: `extract_control_file` on a structurally valid Debian
archive — AR magic, a first record named `debian-binary` whose body is
exactly the four bytes `2.0\n`, a second record named `control.tar*` —
returns the first `TagBlock` parsed from the `./control` or `control`
member of the embedded TAR; each structural validation, when violated,
fails with its `ValueError` (bad AR magic, wrong first-record name,
wrong version body, wrong second-record name); and after every record
whose size is odd exactly one padding byte is consumed — the stream
advances by `size + size % 2` bytes, i.e. by one extra byte exactly in
the odd case. -/
theorem C8_extract_control_file
    (tar : List Nat → Except PyErr (List (PyStr × List Nat)))
    (h1bytes h2bytes body2 rest deb : List Nat)
    (rec1 rec2 : ARRecord) (members : List (PyStr × List Nat))
    (mem : PyStr × List Nat) (b : TagBlockL) (bs : List TagBlockL)
    (hdeb : deb = arMagic ++ h1bytes ++ [50, 46, 48, 10] ++ h2bytes ++ body2 ++ rest)
    (hlen1 : h1bytes.length = 60)
    (hdr1 : mkARRecord h1bytes = Except.ok rec1)
    (hname1 : rec1.name = strBytes (pys ("debian-binary")))
    (hsize1 : rec1.size = (4 : Int))
    (hlen2 : h2bytes.length = 60)
    (hdr2 : mkARRecord h2bytes = Except.ok rec2)
    (hname2 : (strBytes (pys ("control.tar"))).isPrefixOf rec2.name = true)
    (hsize2 : rec2.size = (body2.length : Int))
    (htar : tar body2 = Except.ok members)
    (hfind : members.find?
      (fun m2 => m2.1 = pys ("./control") || m2.1 = pys ("control")) = some mem)
    (hparse : readTagFile (bytesToStr mem.2) = Except.ok (b :: bs)) :
    extractControlFile tar deb = Except.ok b ∧
    (∀ (tar2 : List Nat → Except PyErr (List (PyStr × List Nat)))
      (deb2 : List Nat), deb2.take 8 ≠ arMagic →
      extractControlFile tar2 deb2 =
        Except.error
          (PyErr.valueError (pys ("Stream is not a valid debian archive")))) ∧
    (∀ (tar2 : List Nat → Except PyErr (List (PyStr × List Nat)))
      (h1b tail : List Nat) (r1 : ARRecord),
      h1b.length = 60 → mkARRecord h1b = Except.ok r1 →
      r1.name ≠ strBytes (pys ("debian-binary")) →
      extractControlFile tar2 (arMagic ++ h1b ++ tail) =
        Except.error
          (PyErr.valueError (pys ("Archive does not start with debian-binary file")))) ∧
    (∀ (tar2 : List Nat → Except PyErr (List (PyStr × List Nat)))
      (h1b body4 tail : List Nat) (r1 : ARRecord),
      h1b.length = 60 → mkARRecord h1b = Except.ok r1 →
      r1.name = strBytes (pys ("debian-binary")) →
      r1.size = (body4.length : Int) → body4.length % 2 = 0 →
      body4 ≠ [50, 46, 48, 10] →
      extractControlFile tar2 (arMagic ++ h1b ++ body4 ++ tail) =
        Except.error
          (PyErr.valueError (pys ("Archive does not have debian-binary version 2.0")))) ∧
    (∀ (tar2 : List Nat → Except PyErr (List (PyStr × List Nat)))
      (h1b h2b tail : List Nat) (r1 r2 : ARRecord),
      h1b.length = 60 → mkARRecord h1b = Except.ok r1 →
      r1.name = strBytes (pys ("debian-binary")) → r1.size = (4 : Int) →
      h2b.length = 60 → mkARRecord h2b = Except.ok r2 →
      (strBytes (pys ("control.tar"))).isPrefixOf r2.name = false →
      extractControlFile tar2 (arMagic ++ h1b ++ [50, 46, 48, 10] ++ h2b ++ tail) =
        Except.error
          (PyErr.valueError (pys ("Archive does not have control.tar file")))) ∧
    (∀ (s : ByteStream) (r : ARRecord) (n : Nat), r.size = (n : Int) →
      s.pos + n + n % 2 ≤ s.data.length →
      (readFileRec s r).2.pos = s.pos + n + n % 2 ∧
      (n % 2 = 1 → (readFileRec s r).2.pos = s.pos + n + 1)) := by
  refine ⟨extract_ok_of tar h1bytes h2bytes body2 rest deb rec1 rec2 members mem
      b bs hdeb hlen1 hdr1 hname1 hsize1 hlen2 hdr2 hname2 hsize2 htar hfind
      hparse,
    fun tar2 deb2 hm => extract_magic_bad tar2 deb2 hm,
    fun tar2 h1b tail r1 hl hmk hn => extract_name1_bad tar2 h1b tail r1 hl hmk hn,
    fun tar2 h1b body4 tail r1 hl hmk hn hsz hev hb =>
      extract_version_bad tar2 h1b body4 tail r1 hl hmk hn hsz hev hb,
    fun tar2 h1b h2b tail r1 r2 hl1 hmk1 hn1 hs1 hl2 hmk2 hp =>
      extract_ctrl_bad tar2 h1b h2b tail r1 r2 hl1 hmk1 hn1 hs1 hl2 hmk2 hp,
    fun s r n hsz hfit => ⟨readFileRec_pos_of s r n hsz hfit, fun hodd => ?_⟩⟩
  rw [readFileRec_pos_of s r n hsz hfit, hodd]

/-- Witness for C8: a concrete 146-byte archive (AR magic, 60-byte
`debian-binary` header, body `2.0\n`, 60-byte `control.tar.gz` header,
10 content bytes) with a TAR reader exposing one `control` member whose
bytes parse to a single `Package: x` stanza. -/
theorem C8_extract_control_file_witness :
    extractControlFile
      (fun _ => Except.ok [(pys ("control"), strBytes (pys ("Package: x")))])
      (arMagic ++
        (strBytes (pys ("debian-binary   0           0     0     100644  4         ")) ++ [96, 10]) ++
        [50, 46, 48, 10] ++
        (strBytes (pys ("control.tar.gz  0           0     0     100644  10        ")) ++ [96, 10]) ++
        strBytes (pys ("0123456789")) ++ []) =
      Except.ok { order_first := [pys ("Package")],
                  dict := [(pys ("Package"), pys ("x"))] } :=
  (C8_extract_control_file
    (fun _ => Except.ok [(pys ("control"), strBytes (pys ("Package: x")))])
    (strBytes (pys ("debian-binary   0           0     0     100644  4         ")) ++ [96, 10])
    (strBytes (pys ("control.tar.gz  0           0     0     100644  10        ")) ++ [96, 10])
    (strBytes (pys ("0123456789"))) []
    (arMagic ++
      (strBytes (pys ("debian-binary   0           0     0     100644  4         ")) ++ [96, 10]) ++
      [50, 46, 48, 10] ++
      (strBytes (pys ("control.tar.gz  0           0     0     100644  10        ")) ++ [96, 10]) ++
      strBytes (pys ("0123456789")) ++ [])
    { name := strBytes (pys ("debian-binary")), modified := 0, owner := 0,
      group := 0, mode := 33188, size := 4 }
    { name := strBytes (pys ("control.tar.gz")), modified := 0, owner := 0,
      group := 0, mode := 33188, size := 10 }
    [(pys ("control"), strBytes (pys ("Package: x")))]
    (pys ("control"), strBytes (pys ("Package: x")))
    { order_first := [pys ("Package")], dict := [(pys ("Package"), pys ("x"))] }
    [] rfl (by rfl) (by rfl) (by rfl) (by rfl) (by rfl) (by rfl) (by rfl)
    (by rfl) (by rfl) (by rfl) (by rfl)).1

theorem contains_of_mem {α : Type} [BEq α] [LawfulBEq α] (l : List α) (x : α)
    (h : x ∈ l) : l.contains x = true := by
  induction l with
  | nil => cases h
  | cons a as ih =>
    rw [List.contains_cons]
    cases h with
    | head => simp
    | tail _ h2 => rw [ih h2, Bool.or_true]

theorem contains_false_of_not_mem {α : Type} [BEq α] [LawfulBEq α]
    (l : List α) (x : α) (h : x ∉ l) : l.contains x = false := by
  induction l with
  | nil => rfl
  | cons a as ih =>
    rw [List.contains_cons]
    have h1 : (x == a) = false :=
      beq_eq_false_iff_ne.mpr (fun he => h (by rw [he]; exact List.mem_cons_self a as))
    have h2 := ih (fun hm => h (List.mem_cons_of_mem a hm))
    rw [h1, h2, Bool.or_false]

theorem alistFind_self_of_nodup {α β : Type} [BEq α] [LawfulBEq α]
    (d : List (α × β)) (hnd : (d.map (fun p => p.1)).Nodup) :
    ∀ p ∈ d, alistFind d p.1 = some p.2 := by
  induction d with
  | nil => intro p hp; cases hp
  | cons q d ih =>
    rw [List.map_cons] at hnd
    obtain ⟨hq, hd⟩ := List.nodup_cons.mp hnd
    intro p hp
    cases hp with
    | head => simp [alistFind]
    | tail _ hp2 =>
      have hne : (q.1 == p.1) = false := by
        refine beq_eq_false_iff_ne.mpr (fun he => hq ?_)
        rw [he]
        exact List.mem_map.mpr ⟨p, hp2, rfl⟩
      simp [alistFind, hne, ih hd p hp2]

theorem strPass_first_go (b : TagBlockL) (kvs : List (PyStr × PyStr))
    (els : List (Option PyStr)) (done : List PyStr)
    (hfind : ∀ p ∈ kvs, alistFind b.dict p.1 = some p.2)
    (hdone : ∀ p ∈ kvs, done.contains p.1 = false)
    (hnd : (kvs.map (fun p => p.1)).Nodup) :
    strPass b (fun k done2 => done2.contains k || !(b.containsKey k))
      (kvs.map (fun p => p.1)) (els, done) =
      Except.ok (els ++ kvs.map (fun p => some (formatProp p.1 p.2)),
        done ++ kvs.map (fun p => p.1)) := by
  induction kvs generalizing els done with
  | nil => simp [strPass]
  | cons p kvs ih =>
    rw [List.map_cons] at hnd ⊢
    obtain ⟨hq, hnd2⟩ := List.nodup_cons.mp hnd
    have hfp : alistFind b.dict p.1 = some p.2 := hfind p (List.mem_cons_self p kvs)
    have hdp : done.contains p.1 = false := hdone p (List.mem_cons_self p kvs)
    have hskip : (done.contains p.1 || !(b.containsKey p.1)) = false := by
      rw [hdp, TagBlockL.containsKey, alistHas, hfp]
      rfl
    have hwp : b.writeProp p.1 = Except.ok (some (formatProp p.1 p.2)) := by
      rw [TagBlockL.writeProp, hfp]
    simp only [strPass, hskip, hwp, Bool.false_eq_true, if_false]
    rw [ih (els ++ [some (formatProp p.1 p.2)]) (done ++ [p.1])
      (fun q hq2 => hfind q (List.mem_cons_of_mem p hq2))
      (fun q hq2 => by
        rw [contains_append_eq, hdone q (List.mem_cons_of_mem p hq2)]
        have hne : (q.1 == p.1) = false := by
          refine beq_eq_false_iff_ne.mpr (fun he => hq ?_)
          rw [← he]
          exact List.mem_map.mpr ⟨q, hq2, rfl⟩
        rw [List.contains_cons]
        simp [hne])
      hnd2]
    simp

theorem strPass_skip_all (b : TagBlockL) (skip : PyStr → List PyStr → Bool)
    (ks : List PyStr) (els : List (Option PyStr)) (done : List PyStr)
    (h : ∀ k ∈ ks, skip k done = true) :
    strPass b skip ks (els, done) = Except.ok (els, done) := by
  induction ks with
  | nil => simp [strPass]
  | cons k ks ih =>
    simp only [strPass, h k (List.mem_cons_self k ks), if_true]
    exact ih (fun k2 hk2 => h k2 (List.mem_cons_of_mem k hk2))

theorem formatProp_ne_nil (k v : PyStr) : formatProp k v ≠ [] := by
  rw [formatProp]
  by_cases h : '\n' ∈ v
  · rw [if_pos h]
    cases k <;> simp
  · rw [if_neg h]
    cases k <;> simp

theorem pyFilterTruthy_formatProp (d : List (PyStr × PyStr)) :
    pyFilterTruthy (d.map (fun p => some (formatProp p.1 p.2))) =
      d.map (fun p => formatProp p.1 p.2) := by
  induction d with
  | nil => rfl
  | cons p d ih =>
    simp only [pyFilterTruthy] at ih
    simp only [pyFilterTruthy, List.map_cons, List.filterMap_cons, id,
      List.filter_cons]
    rw [if_pos (by simp [formatProp_ne_nil])]
    rw [ih]

theorem tagStr_parseable (b : TagBlockL) (hb : ParseableBlock b) :
    TagBlockL.tagStr b =
      Except.ok (pyJoin ['\n'] (b.dict.map (fun p => formatProp p.1 p.2))) := by
  obtain ⟨hreq, hlast, hmag, hne, hof, hnd, hpv⟩ := hb
  have hfind := alistFind_self_of_nodup b.dict hnd
  have hpass1 := strPass_first_go b b.dict [] [] hfind (fun p hp => rfl) hnd
  have hpass2 := strPass_skip_all b
    (fun k done => done.contains k || b.order_last.contains k)
    (b.dict.map (fun p => p.1))
    (b.dict.map (fun p => some (formatProp p.1 p.2)))
    (b.dict.map (fun p => p.1))
    (fun k hk => by simp only [contains_of_mem _ _ hk, Bool.true_or])
  rw [TagBlockL.tagStr, hof]
  simp only [hpass1, List.nil_append]
  simp only [hpass2]
  rw [hmag]
  simp only [strPass]
  rw [hlast]
  simp only [strPass]
  rw [pyFilterTruthy_formatProp]

theorem nlReplace_cons (c : Char) (cs : PyStr) :
    nlReplace (c :: cs) =
      (if c = '\n' then ['\n', ' '] else [c]) ++ nlReplace cs := by
  rw [nlReplace, nlReplace, List.map_cons, List.flatten_cons]

theorem nlReplace_append (a b2 : PyStr) :
    nlReplace (a ++ b2) = nlReplace a ++ nlReplace b2 := by
  rw [nlReplace, nlReplace, nlReplace, List.map_append, List.flatten_append]

theorem nlReplace_nlfree (l : PyStr) (h : l.contains '\n' = false) :
    nlReplace l = l := by
  induction l with
  | nil => rfl
  | cons c cs ih =>
    rw [List.contains_cons] at h
    have h1 : ('\n' == c) = false ∧ cs.contains '\n' = false := by
      simpa [Bool.or_eq_false_iff] using h
    have hc : ¬ (c = '\n') := fun he => by
      rw [he] at h1
      simp at h1
    rw [nlReplace_cons, if_neg hc, ih h1.2, List.singleton_append]

theorem nlReplace_join (ls : List PyStr)
    (h : ∀ l ∈ ls, l.contains '\n' = false) :
    nlReplace (pyJoin ['\n'] ls) = pyJoin ['\n', ' '] ls := by
  induction ls with
  | nil => rfl
  | cons l ls ih =>
    cases ls with
    | nil =>
      rw [pyJoin_single, pyJoin_single]
      exact nlReplace_nlfree l (h l (List.mem_cons_self l []))
    | cons l2 ls2 =>
      rw [pyJoin_cons2, pyJoin_cons2]
      rw [nlReplace_append, nlReplace_append]
      rw [nlReplace_nlfree l (h l (List.mem_cons_self l (l2 :: ls2)))]
      have he2 : nlReplace ['\n'] = ['\n', ' '] := rfl
      rw [he2]
      rw [ih (fun l3 hl3 => h l3 (List.mem_cons_of_mem l hl3))]

theorem pyJoin_map_space (ls : List PyStr) (hne : ls ≠ []) :
    pyJoin ['\n'] (ls.map (fun l => ' ' :: l)) =
      ' ' :: pyJoin ['\n', ' '] ls := by
  induction ls with
  | nil => exact absurd rfl hne
  | cons l ls ih =>
    cases ls with
    | nil => rfl
    | cons l2 ls2 =>
      rw [List.map_cons, List.map_cons, pyJoin_cons2, pyJoin_cons2]
      rw [← List.map_cons]
      rw [ih (by simp)]
      simp [List.append_assoc]

theorem pairLines_ne_nil (k v : PyStr) : pairLines k v ≠ [] := by
  rw [pairLines]
  by_cases h : '\n' ∈ v
  · rw [if_pos h]
    simp
  · rw [if_neg h]
    simp

theorem formatProp_lines (k v : PyStr) :
    formatProp k v = pyJoin ['\n'] (pairLines k v) := by
  rw [formatProp, pairLines]
  by_cases h : '\n' ∈ v
  · rw [if_pos h, if_pos h]
    have hnf := mem_splitNl_nlfree v
    cases hsp : splitNl v with
    | nil => exact absurd hsp (splitNl_ne_nil v)
    | cons l1 ls2 =>
      have hv2 : v = pyJoin ['\n'] (l1 :: ls2) := by
        rw [← hsp, pyJoin_splitNl]
      rw [hsp] at hnf
      rw [List.map_cons, pyJoin_cons2, ← List.map_cons]
      rw [pyJoin_map_space (l1 :: ls2) (by simp)]
      conv_lhs => rw [hv2]
      rw [nlReplace_join (l1 :: ls2) hnf]
      simp [List.append_assoc]
  · rw [if_neg h, if_neg h, pyJoin_single]

theorem pyJoin_append_ne (sep : PyStr) (xs ys : List PyStr)
    (hxs : xs ≠ []) (hys : ys ≠ []) :
    pyJoin sep (xs ++ ys) = pyJoin sep xs ++ sep ++ pyJoin sep ys := by
  induction xs with
  | nil => exact absurd rfl hxs
  | cons x xs ih =>
    cases xs with
    | nil =>
      cases ys with
      | nil => exact absurd rfl hys
      | cons y ys2 =>
        rw [pyJoin_single, List.singleton_append, pyJoin_cons2]
    | cons x2 xs2 =>
      rw [List.cons_append, List.cons_append, pyJoin_cons2]
      rw [← List.cons_append]
      rw [ih (by simp)]
      rw [pyJoin_cons2]
      simp [List.append_assoc]

theorem pyJoin_flatten_groups (groups : List (List PyStr))
    (hne : ∀ g ∈ groups, g ≠ []) :
    pyJoin ['\n'] (groups.map (pyJoin ['\n'])) =
      pyJoin ['\n'] groups.flatten := by
  induction groups with
  | nil => rfl
  | cons g gs ih =>
    cases gs with
    | nil => simp [pyJoin_single]
    | cons g2 gs2 =>
      rw [List.map_cons, List.map_cons, pyJoin_cons2, ← List.map_cons]
      rw [ih (fun g3 hg3 => hne g3 (List.mem_cons_of_mem g hg3))]
      have hfne : (g2 :: gs2).flatten ≠ [] := by
        rw [List.flatten_cons]
        have hg2 := hne g2 (List.mem_cons_of_mem g (List.mem_cons_self g2 gs2))
        cases g2 with
        | nil => exact absurd rfl hg2
        | cons c cs => simp
      conv_rhs => rw [List.flatten_cons]
      rw [pyJoin_append_ne ['\n'] g (g2 :: gs2).flatten
        (hne g (List.mem_cons_self g (g2 :: gs2))) hfne]

theorem validKey_parts (k : PyStr) (h : validKey k = true) :
    ∃ c k2, k = c :: k2 ∧ c ≠ ' ' ∧ k.contains ':' = false ∧
      k.contains '\n' = false := by
  cases k with
  | nil => simp [validKey] at h
  | cons c k2 =>
    rw [validKey] at h
    simp only [Bool.and_eq_true, decide_eq_true_eq, Bool.not_eq_true'] at h
    exact ⟨c, k2, rfl, h.1.1, h.1.2, h.2⟩

theorem pairLines_nlfree (k v : PyStr) (hk : validKey k = true) :
    ∀ l ∈ pairLines k v, l.contains '\n' = false := by
  obtain ⟨c, k2, hkc, hcs, hkcol, hknl⟩ := validKey_parts k hk
  intro l hl
  rw [pairLines] at hl
  by_cases h : '\n' ∈ v
  · rw [if_pos h] at hl
    cases hl with
    | head =>
      rw [contains_append_eq, hknl]
      rfl
    | tail _ hl2 =>
      obtain ⟨l2, hl2m, rfl⟩ := List.mem_map.mp hl2
      rw [List.contains_cons, mem_splitNl_nlfree v l2 hl2m]
      rfl
  · rw [if_neg h] at hl
    have hle : l = k ++ ':' :: ' ' :: v := by simpa using hl
    subst hle
    rw [contains_append_eq, hknl, List.contains_cons, List.contains_cons,
      contains_false_of_not_mem v '\n' h]
    rfl

theorem splitNl_serialized (d : List (PyStr × PyStr)) (hd : d ≠ [])
    (hpv : ∀ p ∈ d, validKey p.1 = true) :
    splitNl (pyJoin ['\n'] (d.map (fun p => formatProp p.1 p.2))) =
      (d.map (fun p => pairLines p.1 p.2)).flatten := by
  have h1 : d.map (fun p => formatProp p.1 p.2) =
      (d.map (fun p => pairLines p.1 p.2)).map (pyJoin ['\n']) := by
    rw [List.map_map]
    exact List.map_congr_left (fun p hp => formatProp_lines p.1 p.2)
  have hgne : ∀ g ∈ d.map (fun p => pairLines p.1 p.2), g ≠ [] := by
    intro g hg
    obtain ⟨p, hp, hpe⟩ := List.mem_map.mp hg
    rw [← hpe]
    exact pairLines_ne_nil p.1 p.2
  have hfne : (d.map (fun p => pairLines p.1 p.2)).flatten ≠ [] := by
    cases d with
    | nil => exact absurd rfl hd
    | cons p d2 =>
      rw [List.map_cons, List.flatten_cons]
      have hpn := pairLines_ne_nil p.1 p.2
      cases hpl : pairLines p.1 p.2 with
      | nil => exact absurd hpl hpn
      | cons x xs => simp
  have hlf : ∀ l ∈ (d.map (fun p => pairLines p.1 p.2)).flatten,
      l.contains '\n' = false := by
    intro l hl
    obtain ⟨g, hg, hlg⟩ := List.mem_flatten.mp hl
    obtain ⟨p, hp, hpe⟩ := List.mem_map.mp hg
    rw [← hpe] at hlg
    exact pairLines_nlfree p.1 p.2 (hpv p hp) l hlg
  rw [h1, pyJoin_flatten_groups _ hgne, splitNl_pyJoin _ hfne hlf]

theorem runLines_append (xs ys : List PyStr) (st : ParseState) :
    runLines st (xs ++ ys) =
      match runLines st xs with
      | Except.ok st1 => runLines st1 ys
      | Except.error e => Except.error e := by
  induction xs generalizing st with
  | nil => simp [runLines]
  | cons x xs ih =>
    cases hts : readTagStep st x with
    | ok st1 =>
      simp only [List.cons_append, runLines, hts]
      exact ih st1
    | error e => simp only [List.cons_append, runLines, hts]

theorem pyRstrip_key_line (k v : PyStr) (hv : validLine v = true) :
    pyRstrip (k ++ ':' :: ' ' :: v) = k ++ ':' :: ' ' :: v := by
  obtain ⟨v1, dd, hve, hd⟩ := validLine_last v hv
  have h2 : k ++ ':' :: ' ' :: v = (k ++ ':' :: ' ' :: v1) ++ [dd] := by
    rw [hve]
    simp
  rw [h2, pyRstrip_append_last _ _ hd]

theorem alistSet_last {α β : Type} [BEq α] [LawfulBEq α]
    (d0 : List (α × β)) (k : α) (a v : β)
    (hd0 : k ∉ d0.map (fun p => p.1)) :
    alistSet (d0 ++ [(k, a)]) k v = d0 ++ [(k, v)] := by
  have hfind0 : alistFind d0 k = none := alistFind_eq_none_of_not_mem d0 k hd0
  have hhas : alistHas (d0 ++ [(k, a)]) k = true := by
    rw [alistHas, alistFind_append, hfind0]
    simp [alistFind]
  rw [alistSet, if_pos hhas, List.map_append]
  congr 1
  · have hmap : List.map (fun p => if p.1 == k then (k, v) else p) d0 =
        List.map id d0 :=
      List.map_congr_left (fun p hp => by
        have hne : (p.1 == k) = false := beq_eq_false_iff_ne.mpr
          (fun he => hd0 (List.mem_map.mpr ⟨p, hp, he⟩))
        simp [hne])
    rw [hmap, List.map_id]
  · simp

theorem setItem_fresh (t : TagBlockL) (k v : PyStr)
    (hmag : t.magic = []) (hhas : alistHas t.dict k = false)
    (hof : k ∉ t.order_first) (hol : k ∉ t.order_last) :
    t.setItem k v =
      Except.ok { t with
                  order_first := t.order_first ++ [k],
                  dict := t.dict ++ [(k, v)] } := by
  rw [TagBlockL.setItem]
  rw [if_neg (by rw [hmag]; exact List.not_mem_nil k)]
  rw [if_pos ⟨hof, hol⟩]
  rw [alistSet, if_neg (by simp [hhas])]

theorem setItem_existing (t : TagBlockL) (k v : PyStr)
    (d0 : List (PyStr × PyStr)) (a : PyStr)
    (hmag : t.magic = []) (hdict : t.dict = d0 ++ [(k, a)])
    (hd0 : k ∉ d0.map (fun p => p.1))
    (hof : k ∈ t.order_first) :
    t.setItem k v = Except.ok { t with dict := d0 ++ [(k, v)] } := by
  rw [TagBlockL.setItem]
  rw [if_neg (by rw [hmag]; exact List.not_mem_nil k)]
  rw [if_neg (fun hc => hc.1 hof)]
  rw [hdict, alistSet_last d0 k a v hd0]

theorem runLines_contin (ls2 : List PyStr) (req of ol : List PyStr)
    (d0 : List (PyStr × PyStr)) (k acc : PyStr) (out : List TagBlockL)
    (hkne : k ≠ [])
    (hd0 : k ∉ d0.map (fun p => p.1))
    (hin : k ∈ of)
    (hls : ∀ l ∈ ls2, validLine l = true) :
    runLines
      ⟨{ required := req, order_first := of, order_last := ol, magic := [],
         dict := d0 ++ [(k, acc)] }, some k, out⟩
      (ls2.map (fun l => ' ' :: l)) =
      Except.ok
        ⟨{ required := req, order_first := of, order_last := ol, magic := [],
           dict := d0 ++ [(k, ls2.foldl (fun a l => a ++ '\n' :: l) acc)] },
         some k, out⟩ := by
  induction ls2 generalizing acc with
  | nil => simp [runLines]
  | cons l ls2 ih =>
    have hvl := hls l (List.mem_cons_self l ls2)
    have hfind : alistFind (d0 ++ [(k, acc)]) k = some acc := by
      rw [alistFind_append, alistFind_eq_none_of_not_mem d0 k hd0]
      simp [alistFind]
    have hck : TagBlockL.containsKey
        { required := req, order_first := of, order_last := ol, magic := [],
          dict := d0 ++ [(k, acc)] } k = true := by
      show alistHas (d0 ++ [(k, acc)]) k = true
      rw [alistHas, hfind]
      rfl
    have hset := setItem_existing
      { required := req, order_first := of, order_last := ol, magic := [],
        dict := d0 ++ [(k, acc)] } k (acc ++ '\n' :: l) d0 acc rfl rfl hd0 hin
    have hstep : readTagStep
        ⟨{ required := req, order_first := of, order_last := ol, magic := [],
           dict := d0 ++ [(k, acc)] }, some k, out⟩ (' ' :: l) =
        Except.ok
          ⟨{ required := req, order_first := of, order_last := ol, magic := [],
             dict := d0 ++ [(k, acc ++ '\n' :: l)] }, some k, out⟩ := by
      simp only [readTagStep, pyRstrip_space_validLine l hvl,
        pyStrip_space_validLine l hvl, hfind, hkne, hck, hset]
      rfl
    rw [List.map_cons]
    simp only [runLines, hstep]
    rw [ih (acc ++ '\n' :: l) (fun l3 hl3 => hls l3 (List.mem_cons_of_mem l hl3))]
    rw [List.foldl_cons]

theorem pyJoin_acc (a l : PyStr) (ls : List PyStr) :
    pyJoin ['\n'] ((a ++ '\n' :: l) :: ls) =
      a ++ '\n' :: pyJoin ['\n'] (l :: ls) := by
  cases ls with
  | nil => rw [pyJoin_single, pyJoin_single]
  | cons l2 ls2 =>
    rw [pyJoin_cons2, pyJoin_cons2]
    simp [List.append_assoc]

theorem foldl_nl_join (ls : List PyStr) (a : PyStr) :
    ls.foldl (fun a2 l => a2 ++ '\n' :: l) a = pyJoin ['\n'] (a :: ls) := by
  induction ls generalizing a with
  | nil => rfl
  | cons l ls ih =>
    rw [List.foldl_cons, ih (a ++ '\n' :: l), pyJoin_acc, pyJoin_cons2]
    simp [List.append_assoc]

theorem validLine_ne_nil (l : PyStr) (h : validLine l = true) : l ≠ [] := by
  obtain ⟨c, l2, rfl, hc⟩ := validLine_head l h
  simp

theorem alistFind_isSome_of_mem {α β : Type} [BEq α] [LawfulBEq α]
    (d : List (α × β)) (k : α) (h : k ∈ d.map (fun p => p.1)) :
    (alistFind d k).isSome = true := by
  induction d with
  | nil => simp at h
  | cons p d ih =>
    rw [List.map_cons] at h
    rw [alistFind]
    by_cases hpk : (p.1 == k) = true
    · rw [if_pos hpk]
      rfl
    · rw [if_neg hpk]
      rcases List.mem_cons.mp h with he | hm
      · exact absurd (beq_iff_eq.mpr he.symm) hpk
      · exact ih hm

theorem runLines_field (req of ol : List PyStr) (d0 : List (PyStr × PyStr))
    (k v : PyStr) (key0 : Option PyStr) (out : List TagBlockL)
    (hk : validKey k = true)
    (hv : ∀ l ∈ splitNl v, validLine l = true)
    (hhas : alistHas d0 k = false)
    (hnof : k ∉ of) (hnol : k ∉ ol) :
    runLines
      ⟨{ required := req, order_first := of, order_last := ol, magic := [],
         dict := d0 }, key0, out⟩ (pairLines k v) =
      Except.ok
        ⟨{ required := req, order_first := of ++ [k], order_last := ol,
           magic := [], dict := d0 ++ [(k, v)] }, some k, out⟩ := by
  obtain ⟨c, k2, hkc, hcs, hkcol, hknl⟩ := validKey_parts k hk
  have hkne : k ≠ [] := by rw [hkc]; simp
  have hsetf := setItem_fresh
    { required := req, order_first := of, order_last := ol, magic := [],
      dict := d0 } k
  rw [pairLines]
  by_cases h : '\n' ∈ v
  · rw [if_pos h]
    have hstep1 : readTagStep
        ⟨{ required := req, order_first := of, order_last := ol, magic := [],
           dict := d0 }, key0, out⟩ (k ++ [':']) =
        Except.ok
          ⟨{ required := req, order_first := of, order_last := ol, magic := [],
             dict := d0 }, some k, out⟩ := by
      have hrs : pyRstrip (k ++ [':']) = k ++ [':'] :=
        pyRstrip_append_last k ':' (by decide)
      have hne1 : ¬ ((k ++ [':'] : PyStr) = []) := by rw [hkc]; simp
      have hhd : ¬ ((k ++ [':'] : PyStr).head? = some ' ') := by
        rw [hkc]
        simp [hcs]
      have hsc : splitColon1 (k ++ [':']) = some (k, []) :=
        splitColon1_append k [] hkcol
      simp only [readTagStep, hrs, hne1, hhd, hsc]
      rfl
    cases hsp : splitNl v with
    | nil => exact absurd hsp (splitNl_ne_nil v)
    | cons l1 ls2 =>
      have hvl1 : validLine l1 = true := hv l1 (by rw [hsp]; simp)
      have hls2 : ∀ l ∈ ls2, validLine l = true :=
        fun l hl => hv l (by rw [hsp]; exact List.mem_cons_of_mem l1 hl)
      have hstep2 : readTagStep
          ⟨{ required := req, order_first := of, order_last := ol, magic := [],
             dict := d0 }, some k, out⟩ (' ' :: l1) =
          Except.ok
            ⟨{ required := req, order_first := of ++ [k], order_last := ol,
               magic := [], dict := d0 ++ [(k, l1)] }, some k, out⟩ := by
        have hck : TagBlockL.containsKey
            { required := req, order_first := of, order_last := ol,
              magic := [], dict := d0 } k = false := by
          show alistHas d0 k = false
          exact hhas
        simp only [readTagStep, pyRstrip_space_validLine l1 hvl1,
          pyStrip_space_validLine l1 hvl1, hkne, hck,
          hsetf l1 rfl hhas hnof hnol]
        rfl
      rw [List.map_cons]
      simp only [runLines, hstep1, hstep2]
      have hd0k : k ∉ d0.map (fun p => p.1) := fun hm => by
        rw [alistHas, alistFind_isSome_of_mem d0 k hm] at hhas
        exact Bool.noConfusion hhas
      rw [runLines_contin ls2 req (of ++ [k]) ol d0 k l1 out hkne hd0k
        (by simp) hls2]
      rw [foldl_nl_join]
      have hvv : v = pyJoin ['\n'] (l1 :: ls2) := by
        rw [← hsp, pyJoin_splitNl]
      rw [← hvv]
  · rw [if_neg h]
    have hvv : validLine v = true := by
      refine hv v ?_
      rw [splitNl_nlfree v (contains_false_of_not_mem v '\n' h)]
      simp
    have hrs : pyRstrip (k ++ ':' :: ' ' :: v) = k ++ ':' :: ' ' :: v :=
      pyRstrip_key_line k v hvv
    have hne1 : ¬ ((k ++ ':' :: ' ' :: v : PyStr) = []) := by rw [hkc]; simp
    have hhd : ¬ ((k ++ ':' :: ' ' :: v : PyStr).head? = some ' ') := by
      rw [hkc]
      simp [hcs]
    have hsc : splitColon1 (k ++ ':' :: ' ' :: v) = some (k, ' ' :: v) :=
      splitColon1_append k (' ' :: v) hkcol
    have hstep : readTagStep
        ⟨{ required := req, order_first := of, order_last := ol, magic := [],
           dict := d0 }, key0, out⟩ (k ++ ':' :: ' ' :: v) =
        Except.ok
          ⟨{ required := req, order_first := of ++ [k], order_last := ol,
             magic := [], dict := d0 ++ [(k, v)] }, some k, out⟩ := by
      simp only [readTagStep, hrs, hne1, hhd, hsc,
        pyStrip_space_validLine v hvv, validLine_ne_nil v hvv,
        hsetf v rfl hhas hnof hnol]
      rfl
    simp only [runLines, hstep]

theorem runLines_fields (kvs : List (PyStr × PyStr)) (req of ol : List PyStr)
    (d0 : List (PyStr × PyStr)) (key0 : Option PyStr) (out : List TagBlockL)
    (hkv : ∀ p ∈ kvs,
      validKey p.1 = true ∧ ∀ l ∈ splitNl p.2, validLine l = true)
    (hfresh : ∀ p ∈ kvs, alistHas d0 p.1 = false ∧ p.1 ∉ of ∧ p.1 ∉ ol)
    (hnd : (kvs.map (fun p => p.1)).Nodup)
    (hne : kvs ≠ []) :
    ∃ kf, runLines
      ⟨{ required := req, order_first := of, order_last := ol, magic := [],
         dict := d0 }, key0, out⟩
      ((kvs.map (fun p => pairLines p.1 p.2)).flatten) =
      Except.ok
        ⟨{ required := req, order_first := of ++ kvs.map (fun p => p.1),
           order_last := ol, magic := [], dict := d0 ++ kvs },
         some kf, out⟩ := by
  induction kvs generalizing of d0 key0 with
  | nil => exact absurd rfl hne
  | cons p kvs ih =>
    obtain ⟨hkp, hvp⟩ := hkv p (List.mem_cons_self p kvs)
    obtain ⟨hhp, hofp, holp⟩ := hfresh p (List.mem_cons_self p kvs)
    rw [List.map_cons] at hnd
    obtain ⟨hp1, hnd2⟩ := List.nodup_cons.mp hnd
    simp only [List.map_cons, List.flatten_cons, runLines_append,
      runLines_field req of ol d0 p.1 p.2 key0 out hkp hvp hhp hofp holp]
    cases kvs with
    | nil =>
      refine ⟨p.1, ?_⟩
      simp [runLines]
    | cons p2 kvs2 =>
      have hkv2 : ∀ q ∈ p2 :: kvs2,
          validKey q.1 = true ∧ ∀ l ∈ splitNl q.2, validLine l = true :=
        fun q hq => hkv q (List.mem_cons_of_mem p hq)
      have hfresh2 : ∀ q ∈ p2 :: kvs2,
          alistHas (d0 ++ [(p.1, p.2)]) q.1 = false ∧
          q.1 ∉ of ++ [p.1] ∧ q.1 ∉ ol := by
        intro q hq
        obtain ⟨hhq, hofq, holq⟩ := hfresh q (List.mem_cons_of_mem p hq)
        have hqp : q.1 ≠ p.1 := fun he => hp1 (by
          rw [← he]
          exact List.mem_map.mpr ⟨q, hq, rfl⟩)
        refine ⟨?_, ?_, holq⟩
        · rw [alistHas, alistFind_append]
          cases hfd : alistFind d0 q.1 with
          | some w =>
            rw [alistHas, hfd] at hhq
            exact Bool.noConfusion hhq
          | none =>
            have hbeq : (p.1 == q.1) = false := beq_eq_false_iff_ne.mpr
              (fun he => hqp he.symm)
            simp [alistFind, hbeq]
        · intro hm
          rcases List.mem_append.mp hm with hm1 | hm2
          · exact hofq hm1
          · exact hqp (by simpa using hm2)
      obtain ⟨kf, hrest⟩ := ih (of ++ [p.1]) (d0 ++ [(p.1, p.2)]) (some p.1)
        hkv2 hfresh2 hnd2 (by simp)
      refine ⟨kf, ?_⟩
      rw [hrest]
      simp [List.append_assoc]

/-- Claim C1: for every parseable `TagBlock` — bookkeeping lists empty,
field order the dictionary order with distinct parseable keys, and every
value line non-blank with no leading or trailing whitespace (which is
what "no carriage returns, continuation lines with at most the one
serializer-added leading space" comes to for blocks the parser can
produce) — parsing the serialization yields exactly the block back, and
serializing any reparse of the serialization yields the same string
(one-reparse fixed point). -/
theorem C1_tag_file_roundtrip (b : TagBlockL) (hb : ParseableBlock b) :
    ∃ s, TagBlockL.tagStr b = Except.ok s ∧
      readTagFile s = Except.ok [b] ∧
      ∀ b2 bs2, readTagFile s = Except.ok (b2 :: bs2) →
        TagBlockL.tagStr b2 = Except.ok s := by
  obtain ⟨breq, bof, bol, bmag, bdict⟩ := b
  obtain ⟨hreq, hlast, hmag, hne, hof, hnd, hpv⟩ := hb
  dsimp only at hreq hlast hmag hne hof hnd hpv
  subst hreq
  subst hlast
  subst hmag
  subst hof
  have hparse : readTagFile
      (pyJoin ['\n'] (bdict.map (fun p => formatProp p.1 p.2))) =
      Except.ok [⟨[], bdict.map (fun p => p.1), [], [], bdict⟩] := by
    rw [readTagFile, splitNl_serialized bdict hne (fun p hp => (hpv p hp).1)]
    obtain ⟨kf, hrun⟩ := runLines_fields bdict [] [] [] [] none []
      hpv (fun p hp => ⟨rfl, by simp, by simp⟩) hnd hne
    simp only [hrun, TagBlockL.lenB, List.nil_append]
    rw [if_pos (List.length_pos.mpr hne)]
  refine ⟨_, tagStr_parseable ⟨[], bdict.map (fun p => p.1), [], [], bdict⟩
    ⟨rfl, rfl, rfl, hne, rfl, hnd, hpv⟩, hparse, fun b2 bs2 h2 => ?_⟩
  rw [hparse] at h2
  injection h2 with h3
  injection h3 with h4 h5
  rw [← h4]
  exact tagStr_parseable ⟨[], bdict.map (fun p => p.1), [], [], bdict⟩
    ⟨rfl, rfl, rfl, hne, rfl, hnd, hpv⟩

/-- Witness for C1: the two-field block `Package: x` / multi-line
`Depends: a⏎b` serializes to `Package: x⏎Depends:⏎ a⏎ b` and parses back
to exactly itself. -/
theorem C1_tag_file_roundtrip_witness :
    TagBlockL.tagStr
      { order_first := [pys ("Package"), pys ("Depends")],
        dict := [(pys ("Package"), pys ("x")),
                 (pys ("Depends"), pys ("a\nb"))] } =
      Except.ok (pys ("Package: x\nDepends:\n a\n b")) ∧
    readTagFile (pys ("Package: x\nDepends:\n a\n b")) =
      Except.ok [{ order_first := [pys ("Package"), pys ("Depends")],
                   dict := [(pys ("Package"), pys ("x")),
                            (pys ("Depends"), pys ("a\nb"))] }] := by
  obtain ⟨s, h1, h2, h3⟩ := C1_tag_file_roundtrip
    { order_first := [pys ("Package"), pys ("Depends")],
      dict := [(pys ("Package"), pys ("x")),
               (pys ("Depends"), pys ("a\nb"))] }
    ⟨rfl, rfl, rfl, by decide, rfl, by decide, by decide⟩
  have heval : TagBlockL.tagStr
      { order_first := [pys ("Package"), pys ("Depends")],
        dict := [(pys ("Package"), pys ("x")),
                 (pys ("Depends"), pys ("a\nb"))] } =
      Except.ok (pys ("Package: x\nDepends:\n a\n b")) := rfl
  rw [heval] at h1
  injection h1 with h4
  refine ⟨heval, ?_⟩
  rw [← h4] at h2
  exact h2

end DebRemux
